import Mathlib

/-!
Verification of the adaptive hash index core of `storage/innobase/btr/btr0sea.cc`.

This file is a shallow embedding of the AHI data model and operations:

* the per-index search heuristic `btr_search_info_update_hash`,
* the per-block helpfulness decision `btr_search_update_block_hash_info`,
* the fingerprint functions `rec_fold` (compact and redundant record formats)
  and `dtuple_fold`,
* a partition of the hash table with its slab allocator
  (`btr_sea::partition::insert`, `erase`, `cleanup_after_erase`,
  `prepare_insert`),
* the drop protocol `btr_search_drop_page_hash_index` with the
  reference-count / lazy-free step, and
* the guess path `btr_search_guess_on_hash`.

Machine integers are modelled as `Nat` with explicit truncation where the
C code truncates.  Latches are no-ops: the embedding gives the sequential
semantics of each operation, which is what the claims under scrutiny are
about.  External helpers that are not part of the repository slice
(`my_crc32c`, `ut_fold_ull`, the redundant-record offset accessors) are
modelled from the specification and are marked as such in their doc
comments.
-/

namespace Ahi

/-- Truncation to 16 bits, the C cast to `uint16_t`. -/
def u16 (x : Nat) : Nat := x % 65536

/-- The constant `BTR_SEARCH_PAGE_BUILD_LIMIT` of btr0sea.cc. -/
def pageBuildLimitC : Nat := 16

/-- The constant `BTR_SEARCH_BUILD_LIMIT` of btr0sea.cc. -/
def buildLimitC : Nat := 100

/-- The `buf_block_t::LEFT_SIDE` bit: bit 31 of the packed parameter word. -/
def leftSideBit : Nat := 2 ^ 31

/-- btr_search_get_n_fields: number of complete or incomplete fields of a
packed `n_bytes_fields` word (`uint16_t(w) + (w >= 1 << 16)`). -/
def btr_search_get_n_fields (w : Nat) : Nat :=
  u16 w + (if w ≥ 2 ^ 16 then 1 else 0)

/-- Per-index search info: the fields of `dict_index_t::ahi` used by the
heuristics.  `hashAnalysis` stands for the analysis counter touched by
`hash_analysis_reset()` (modelled from the spec: a counter reset to zero). -/
structure SearchInfo where
  nHashPotential : Nat
  leftBytesFields : Nat
  hashAnalysis : Nat
  lastHashSucc : Bool
deriving DecidableEq, Repr

/-- Per-block AHI fields of `buf_block_t` used by the block heuristic.
`indexSet` models whether `block->index` is non-null. -/
structure BlockInfo where
  nHashHelps : Nat
  nextLeftBytesFields : Nat
  currLeftBytesFields : Nat
  indexSet : Bool
deriving DecidableEq, Repr

/-- btr_search_update_block_hash_info (btr0sea.cc lines 531-571): decide
whether to (re)build the hash index on the block.  Returns
`(build, info', block')`. -/
def btr_search_update_block_hash_info (info : SearchInfo) (block : BlockInfo)
    (nRecs : Nat) : Bool × SearchInfo × BlockInfo :=
  if block.nHashHelps ≠ 0 ∧ info.nHashPotential ≠ 0 ∧
      block.nextLeftBytesFields = info.leftBytesFields then
    if info.nHashPotential ≥ buildLimitC ∧ block.nHashHelps / 2 > nRecs then
      (true,
       { info with lastHashSucc :=
          block.indexSet && (block.currLeftBytesFields == info.leftBytesFields) },
       block)
    else if info.nHashPotential ≥ buildLimitC ∧
        block.nHashHelps ≥ nRecs / pageBuildLimitC ∧
        (¬ block.indexSet ∨ info.leftBytesFields ≠ block.currLeftBytesFields) then
      (true,
       { info with lastHashSucc :=
          block.indexSet && (block.currLeftBytesFields == info.leftBytesFields) },
       block)
    else
      (false,
       { info with lastHashSucc :=
          block.indexSet && (block.currLeftBytesFields == info.leftBytesFields) },
       if (block.nHashHelps + 1) % 65536 ≠ 0 then
         { block with nHashHelps := (block.nHashHelps + 1) % 65536 }
       else block)
  else
    (false, { info with lastHashSucc := false },
     { block with nHashHelps := 1, nextLeftBytesFields := info.leftBytesFields })

/-- C2: under the stable-recommendation hypothesis (matching
`next_left_bytes_fields`, non-zero `n_hash_helps` and `n_hash_potential`),
`btr_search_update_block_hash_info` returns true exactly when
`n_hash_potential ≥ 100` and either `n_hash_helps / 2 > n_recs`, or
`n_hash_helps ≥ n_recs / 16` with the block's current parameters absent or
different from the recommendation; otherwise it returns false after
incrementing `n_hash_helps` with u16 saturation, leaving the other block
fields unchanged. -/
theorem C2_update_block_hash_info (info : SearchInfo) (block : BlockInfo)
    (nRecs : Nat)
    (hnext : block.nextLeftBytesFields = info.leftBytesFields)
    (hhelps : block.nHashHelps ≠ 0)
    (hpot : info.nHashPotential ≠ 0)
    (hbound : block.nHashHelps < 65536) :
    ((btr_search_update_block_hash_info info block nRecs).1 = true ↔
      (info.nHashPotential ≥ 100 ∧
        (block.nHashHelps / 2 > nRecs ∨
          (block.nHashHelps ≥ nRecs / 16 ∧
            (¬ block.indexSet ∨
              info.leftBytesFields ≠ block.currLeftBytesFields))))) ∧
    ((btr_search_update_block_hash_info info block nRecs).1 = false →
      (btr_search_update_block_hash_info info block nRecs).2.2.nHashHelps =
          (if block.nHashHelps = 65535 then 65535 else block.nHashHelps + 1) ∧
      (btr_search_update_block_hash_info info block nRecs).2.2.nextLeftBytesFields =
          block.nextLeftBytesFields ∧
      (btr_search_update_block_hash_info info block nRecs).2.2.currLeftBytesFields =
          block.currLeftBytesFields ∧
      (btr_search_update_block_hash_info info block nRecs).2.2.indexSet =
          block.indexSet) := by
  have hb : buildLimitC = 100 := rfl
  have hp : pageBuildLimitC = 16 := rfl
  unfold btr_search_update_block_hash_info
  rw [if_pos ⟨hhelps, hpot, hnext⟩, hb, hp]
  by_cases h1 : info.nHashPotential ≥ 100 ∧ block.nHashHelps / 2 > nRecs
  · rw [if_pos h1]
    refine ⟨by simp only [true_iff]; exact ⟨h1.1, Or.inl h1.2⟩, ?_⟩
    intro h; cases h
  · rw [if_neg h1]
    by_cases h2 : info.nHashPotential ≥ 100 ∧
        block.nHashHelps ≥ nRecs / 16 ∧
        (¬ block.indexSet ∨ info.leftBytesFields ≠ block.currLeftBytesFields)
    · rw [if_pos h2]
      refine ⟨by simp only [true_iff]; exact ⟨h2.1, Or.inr h2.2⟩, ?_⟩
      intro h; cases h
    · rw [if_neg h2]
      constructor
      · simp only [Bool.false_eq_true, false_iff]
        intro ⟨hge, hor⟩
        rcases hor with hA | hB
        · exact h1 ⟨hge, hA⟩
        · exact h2 ⟨hge, hB⟩
      · intro _
        by_cases hsat : block.nHashHelps = 65535
        · have hz : (block.nHashHelps + 1) % 65536 = 0 := by rw [hsat]
          rw [if_neg (by simpa using hz), if_pos hsat]
          exact ⟨hsat, rfl, rfl, rfl⟩
        · have hlt : block.nHashHelps + 1 < 65536 := by omega
          have hm : (block.nHashHelps + 1) % 65536 = block.nHashHelps + 1 :=
            Nat.mod_eq_of_lt hlt
          rw [if_pos (by simp [hm]), if_neg hsat]
          exact ⟨by simpa using hm, rfl, rfl, rfl⟩

/-- Witness for C2 at a concrete input: potential 100, helps 3, one record
on the page, stale current parameters: build is recommended. -/
theorem C2_update_block_hash_info_witness :
    ((btr_search_update_block_hash_info
        ⟨100, 7, 0, false⟩ ⟨3, 7, 5, true⟩ 1).1 = true ↔
      ((100 : Nat) ≥ 100 ∧
        ((3 : Nat) / 2 > 1 ∨
          ((3 : Nat) ≥ 1 / 16 ∧ (¬ (true : Bool) ∨ (7 : Nat) ≠ 5))))) := by
  have h := (C2_update_block_hash_info ⟨100, 7, 0, false⟩ ⟨3, 7, 5, true⟩ 1
    (by decide) (by decide) (by decide) (by decide)).1
  exact h

/-! ### The per-index heuristic `btr_search_info_update_hash` (claim C3) -/

/-- Comparison positions produced by a B-tree descent
(`cursor->{up_match, up_bytes, low_match, low_bytes}`). -/
structure CurPos where
  upMatch : Nat
  upBytes : Nat
  lowMatch : Nat
  lowBytes : Nat
deriving DecidableEq, Repr

/-- The packed comparison value of the recommendation:
`uint16_t((lbf & ~LEFT_SIDE) >> 16) | uint16_t(lbf) << 16`
(n_fields in the high half, n_bytes in the low half). -/
def infoCmpOf (lbf : Nat) : Nat :=
  u16 ((lbf % 2 ^ 31) / 2 ^ 16) + u16 lbf * 2 ^ 16

/-- The `left_side` bit of a packed parameter word
(`left_bytes_fields & buf_block_t::LEFT_SIDE`). -/
def leftSideOf (lbf : Nat) : Prop := Nat.testBit lbf 31 = true

instance (lbf : Nat) : Decidable (leftSideOf lbf) :=
  inferInstanceAs (Decidable (Nat.testBit lbf 31 = true))

/-- The packed comparison value of the low side of the cursor:
`low_match << 16 | low_bytes`. -/
def lowCmpOf (c : CurPos) : Nat := c.lowMatch * 2 ^ 16 + c.lowBytes

/-- The packed comparison value of the up side of the cursor:
`up_match << 16 | up_bytes`. -/
def upCmpOf (c : CurPos) : Nat := c.upMatch * 2 ^ 16 + c.upBytes

/-- The new recommendation computed by the tail of
`btr_search_info_update_hash` from `(low, up)` and `n_unique`
(btr0sea.cc lines 491-518).  The `|=` of disjoint bit ranges is written
as addition. -/
def newRecommLBF (nUnique : Nat) (c : CurPos) : Nat :=
  if lowCmpOf c ≤ upCmpOf c then
    leftSideBit +
      (if c.upMatch ≥ nUnique then nUnique
       else if c.lowMatch < c.upMatch then c.lowMatch + 1
       else c.lowMatch + (c.lowBytes + 1) * 2 ^ 16)
  else
    (if c.lowMatch ≥ nUnique then nUnique
     else if c.lowMatch > c.upMatch then c.upMatch + 1
     else c.upMatch + (c.upBytes + 1) * 2 ^ 16)

/-- btr_search_info_update_hash (btr0sea.cc lines 449-525): update the
per-index search info from the comparison results of a positioned search.
`isIbuf` models `index->is_ibuf()`. -/
def btr_search_info_update_hash (isIbuf : Bool) (nUnique : Nat)
    (info : SearchInfo) (c : CurPos) : SearchInfo :=
  if isIbuf then info
  else if info.nHashPotential = 0 then
    { info with leftBytesFields := leftSideBit + 1, hashAnalysis := 0,
                nHashPotential :=
                  if info.nHashPotential < buildLimitC + 5 then
                    info.nHashPotential + 1
                  else info.nHashPotential }
  else if u16 info.leftBytesFields ≥ nUnique ∧ c.upMatch ≥ nUnique then
    { info with nHashPotential :=
        if info.nHashPotential < buildLimitC + 5 then info.nHashPotential + 1
        else info.nHashPotential }
  else if leftSideOf info.leftBytesFields ↔
      infoCmpOf info.leftBytesFields ≤ lowCmpOf c then
    { info with hashAnalysis := 0,
                leftBytesFields := newRecommLBF nUnique c,
                nHashPotential := if upCmpOf c = lowCmpOf c then 0 else 1 }
  else if leftSideOf info.leftBytesFields ↔
      infoCmpOf info.leftBytesFields ≤ upCmpOf c then
    { info with nHashPotential :=
        if info.nHashPotential < buildLimitC + 5 then info.nHashPotential + 1
        else info.nHashPotential }
  else
    { info with hashAnalysis := 0,
                leftBytesFields := newRecommLBF nUnique c,
                nHashPotential := if upCmpOf c = lowCmpOf c then 0 else 1 }

/-- Counterexample to C3 as stated: at this concrete input the claim's
hypotheses hold (`n_hash_potential` non-zero, the recommendation does not
already cover `n_unique`, and `left_side = (info_cmp ≤ low_cmp)`), yet the
function derives a new recommendation and resets the potential instead of
keeping `left_bytes_fields` and incrementing: the code treats
`left_side = (info_cmp ≤ low_cmp)` as the wrong-side case. -/
theorem C3_claim_counterexample :
    (let info : SearchInfo := ⟨5, leftSideBit + 1, 7, true⟩
     let c : CurPos := ⟨1, 0, 2, 0⟩
     info.nHashPotential ≠ 0 ∧
     ¬ (u16 info.leftBytesFields ≥ 3 ∧ c.upMatch ≥ 3) ∧
     (leftSideOf info.leftBytesFields ↔
       infoCmpOf info.leftBytesFields ≤ lowCmpOf c) ∧
     (btr_search_info_update_hash false 3 info c).leftBytesFields ≠
       info.leftBytesFields ∧
     (btr_search_info_update_hash false 3 info c).nHashPotential ≠
       info.nHashPotential + 1) := by
  decide

/-- C3 amended: with non-zero potential and no already-covering
recommendation, the keep-and-bump branch runs when the recommended
position is on the wrong side of the low comparison
(`left_side ≠ (info_cmp ≤ low_cmp)`) but on the expected side of the up
comparison (`left_side = (info_cmp ≤ up_cmp)`): `left_bytes_fields` is
unchanged and `n_hash_potential` is incremented, saturating at
`BUILD_LIMIT + 5`.  When `left_side = (info_cmp ≤ low_cmp)`, or the
position is on the wrong side of both comparisons, a new recommendation is
derived and `n_hash_potential` is reset to 1 when `up_cmp ≠ low_cmp` and
to 0 otherwise. -/
theorem C3_keep_branch_amended (nUnique : Nat) (info : SearchInfo)
    (c : CurPos)
    (hpot : info.nHashPotential ≠ 0)
    (hcover : ¬ (u16 info.leftBytesFields ≥ nUnique ∧ c.upMatch ≥ nUnique)) :
    ((¬ (leftSideOf info.leftBytesFields ↔
        infoCmpOf info.leftBytesFields ≤ lowCmpOf c) ∧
      (leftSideOf info.leftBytesFields ↔
        infoCmpOf info.leftBytesFields ≤ upCmpOf c)) →
      btr_search_info_update_hash false nUnique info c =
        { info with nHashPotential :=
            if info.nHashPotential < 105 then info.nHashPotential + 1
            else info.nHashPotential }) ∧
    (((leftSideOf info.leftBytesFields ↔
        infoCmpOf info.leftBytesFields ≤ lowCmpOf c) ∨
      (¬ (leftSideOf info.leftBytesFields ↔
        infoCmpOf info.leftBytesFields ≤ lowCmpOf c) ∧
       ¬ (leftSideOf info.leftBytesFields ↔
        infoCmpOf info.leftBytesFields ≤ upCmpOf c))) →
      btr_search_info_update_hash false nUnique info c =
        { info with hashAnalysis := 0,
                    leftBytesFields := newRecommLBF nUnique c,
                    nHashPotential :=
                      if upCmpOf c = lowCmpOf c then 0 else 1 }) := by
  have h105 : buildLimitC + 5 = 105 := rfl
  unfold btr_search_info_update_hash
  rw [if_neg (by simp), if_neg hpot, if_neg hcover, h105]
  constructor
  · intro ⟨hlow, hup⟩
    rw [if_neg hlow, if_pos hup]
  · intro h
    rcases h with hlow | ⟨hlow, hup⟩
    · rw [if_pos hlow]
    · rw [if_neg hlow, if_neg hup]

/-- Witness for the amended C3 at a concrete input hitting the keep
branch: `left_side` is set, `info_cmp > low_cmp` and `info_cmp ≤ up_cmp`,
so the recommendation is kept and the potential bumped from 5 to 6. -/
theorem C3_keep_branch_amended_witness :
    btr_search_info_update_hash false 3 ⟨5, leftSideBit + 1, 7, true⟩
        ⟨2, 0, 0, 5⟩ =
      { (⟨5, leftSideBit + 1, 7, true⟩ : SearchInfo) with nHashPotential :=
          if (5 : Nat) < 105 then 5 + 1 else 5 } :=
  (C3_keep_branch_amended 3 ⟨5, leftSideBit + 1, 7, true⟩ ⟨2, 0, 0, 5⟩
    (by decide) (by decide)).1 (by decide)

/-! ### Fingerprints: `rec_fold` and `dtuple_fold` (claim C1) -/

/-- The CRC-32C (Castagnoli) polynomial, reflected form. -/
def crcPoly : Nat := 0x82F63B78

/-- One bit step of the reflected CRC-32C computation. -/
def crcBit (c : Nat) : Nat :=
  if c % 2 = 1 then (c / 2) ^^^ crcPoly else c / 2

/-- One byte step of the reflected CRC-32C computation. -/
def crcByte (c b : Nat) : Nat :=
  crcBit (crcBit (crcBit (crcBit (crcBit (crcBit (crcBit (crcBit
    (c ^^^ b % 256))))))))

/-- Modelled from the spec: `my_crc32c(state, data, len)` advances a
CRC-32C state over a byte sequence.  The function itself is not part of
the repository slice; the claims only depend on it being a deterministic
left fold over the byte stream. -/
def myCrc32c (c : Nat) (data : List Nat) : Nat := data.foldl crcByte c

/-- Modelled from the spec: `ut_fold_ull(index.id)` folds the 64-bit index
id to a 32-bit seed.  Both fold paths use it identically, so any
truncation serves. -/
def utFoldUll (id : Nat) : Nat := id % 2 ^ 32

/-- The common CRC seed of both fold paths:
`uint32_t(ut_fold_ull(index.id))`. -/
def foldSeed (indexId : Nat) : Nat := utFoldUll indexId

/-- A field of the examined region of a logical tuple: NULL flag, data
bytes, and the SQL NULL size of its type (`dtype_get_sql_null_size`,
zero for a variable-length column). -/
structure DTField where
  isNull : Bool
  bytes : List Nat
  sqlNullSize : Nat
deriving DecidableEq, Repr

/-- Bytes a field occupies in a ROW_FORMAT comp record: a NULL field is
not stored at all. -/
def compStored (f : DTField) : List Nat :=
  if f.isNull then [] else f.bytes

/-- Payload of a compact-format record carrying the tuple content:
concatenation of the stored fields. -/
def recBytesComp (fs : List DTField) : List Nat :=
  (fs.map compStored).flatten

/-- Bytes a field occupies in a ROW_FORMAT redundant record: a NULL field
is stored as `sql_null_size` zero bytes (zero of them for variable-length
columns). -/
def redStored (f : DTField) : List Nat :=
  if f.isNull then List.replicate f.sqlNullSize 0 else f.bytes

/-- Payload of a redundant-format record carrying the tuple content. -/
def recBytesRed (fs : List DTField) : List Nat :=
  (fs.map redStored).flatten

/-- Modelled from the spec: `rec_1_get_field_end_info(rec, i)` /
`rec_2_get_field_end_info(rec, i)` give the end offset of field `i`
within the record payload; on the record generated from the tuple this is
the cumulative sum of stored field lengths. -/
def endInfoRed (fs : List DTField) (i : Nat) : Nat :=
  (((fs.take (i + 1)).map redStored).map List.length).sum

/-- The loop of `rec_fold<true>` (btr0sea.cc lines 198-249): walk the
first `n` fields accumulating the stored lengths; returns the total and
the length contributed by the last field walked (`n`, `len` of the C
code; a NULL field contributes `len = 0`). -/
def recWalkComp : List DTField → Nat → Nat × Nat
  | _, 0 => (0, 0)
  | [], _ + 1 => (0, 0)
  | f :: rest, n + 1 =>
    if n = 0 then ((compStored f).length, (compStored f).length)
    else
      ((compStored f).length + (recWalkComp rest n).1, (recWalkComp rest n).2)

/-- rec_fold for ROW_FORMAT comp (btr0sea.cc lines 198-253, 284): the
prefix length is the sum of the walked stored lengths, adjusted by
`min(n_bytes, len) - len` when a partial field is requested, and the
CRC-32C is taken over that prefix of the record payload. -/
def rec_fold_comp (indexId : Nat) (fs : List DTField)
    (nBytesFields : Nat) : Nat :=
  myCrc32c (foldSeed indexId) ((recBytesComp fs).take
    (if nBytesFields / 2 ^ 16 ≠ 0 then
      (recWalkComp fs (btr_search_get_n_fields nBytesFields)).1 +
        min (nBytesFields / 2 ^ 16)
          (recWalkComp fs (btr_search_get_n_fields nBytesFields)).2 -
        (recWalkComp fs (btr_search_get_n_fields nBytesFields)).2
     else (recWalkComp fs (btr_search_get_n_fields nBytesFields)).1))

/-- rec_fold for ROW_FORMAT redundant (btr0sea.cc lines 254-284),
transcribed exactly: with at least one complete field and a partial byte
count, the code computes `len = end(n_f-1) - end(n_f-2)` and then
`n += min(n_bytes, n - len) - len` (note: `n - len`, not `len`). -/
def rec_fold_red (indexId : Nat) (fs : List DTField)
    (nBytesFields : Nat) : Nat :=
  let nf := btr_search_get_n_fields nBytesFields
  let nBytes := nBytesFields / 2 ^ 16
  let n0 := endInfoRed fs (nf - 1)
  let len := n0 - endInfoRed fs (nf - 2)
  let n :=
    if nBytes = 0 then n0
    else if u16 nBytesFields = 0 then min nBytes n0
    else n0 + min nBytes (n0 - len) - len
  myCrc32c (foldSeed indexId) ((recBytesRed fs).take n)

/-- The complete-fields loop of dtuple_fold (btr0sea.cc lines 1007-1023):
feed each of the first `n` fields to the CRC; a NULL field contributes
nothing in comp format and `sql_null_size` zero bytes in redundant
format. -/
def dtupleFoldFields (comp : Bool) (fold : Nat) :
    List DTField → Nat → Nat
  | _, 0 => fold
  | [], _ + 1 => fold
  | f :: rest, n + 1 =>
    dtupleFoldFields comp
      (if f.isNull then
         (if comp then fold
          else myCrc32c fold (List.replicate f.sqlNullSize 0))
       else myCrc32c fold f.bytes)
      rest n

/-- dtuple_fold (btr0sea.cc lines 996-1044): fold the first
`uint16_t(n_bytes_fields)` fields, then `min(n_bytes, len)` bytes of the
next field; a NULL partial field terminates the fold in comp format and
contributes `min(n_bytes, sql_null_size)` zero bytes in redundant
format. -/
def dtuple_fold (comp : Bool) (indexId : Nat) (fs : List DTField)
    (nBytesFields : Nat) : Nat :=
  if nBytesFields / 2 ^ 16 = 0 then
    dtupleFoldFields comp (foldSeed indexId) fs (u16 nBytesFields)
  else
    match fs.drop (u16 nBytesFields) with
    | [] => dtupleFoldFields comp (foldSeed indexId) fs (u16 nBytesFields)
    | f :: _ =>
      if f.isNull then
        if comp then dtupleFoldFields comp (foldSeed indexId) fs (u16 nBytesFields)
        else
          myCrc32c (dtupleFoldFields comp (foldSeed indexId) fs (u16 nBytesFields))
            (List.replicate (min (nBytesFields / 2 ^ 16) f.sqlNullSize) 0)
      else
        myCrc32c (dtupleFoldFields comp (foldSeed indexId) fs (u16 nBytesFields))
          (f.bytes.take (min (nBytesFields / 2 ^ 16) f.bytes.length))

/-- CRC-32C states compose over concatenation of byte streams. -/
theorem myCrc32c_append (c : Nat) (a b : List Nat) :
    myCrc32c c (a ++ b) = myCrc32c (myCrc32c c a) b :=
  List.foldl_append ..

/-- The complete-fields loop of dtuple_fold feeds exactly the
concatenation of the stored bytes of the first `n` fields (comp
format). -/
theorem dtupleFoldFields_comp_eq (fold : Nat) (fs : List DTField) (n : Nat) :
    dtupleFoldFields true fold fs n =
      myCrc32c fold (((fs.take n).map compStored).flatten) := by
  induction fs generalizing fold n with
  | nil => cases n <;> simp [dtupleFoldFields, myCrc32c]
  | cons f rest ih =>
    cases n with
    | zero => simp [dtupleFoldFields, myCrc32c]
    | succ m =>
      simp only [dtupleFoldFields, List.take_succ_cons, List.map_cons,
        List.flatten_cons, ih, myCrc32c_append]
      cases hf : f.isNull <;> simp [compStored, hf, myCrc32c]

/-- The length accumulated by the loop of `rec_fold<true>` over the first
`n` fields is the total stored length of those fields. -/
theorem recWalkComp_fst (fs : List DTField) (n : Nat) (h : n ≤ fs.length) :
    (recWalkComp fs n).1 = (((fs.take n).map compStored).map List.length).sum := by
  induction fs generalizing n with
  | nil =>
    have hn : n = 0 := by simpa using h
    subst hn
    simp [recWalkComp]
  | cons f rest ih =>
    cases n with
    | zero => simp [recWalkComp]
    | succ m =>
      cases m with
      | zero => simp [recWalkComp]
      | succ k =>
        have hk : k + 1 ≤ rest.length := by simpa using h
        simp only [recWalkComp, Nat.succ_ne_zero, if_neg, List.take_succ_cons,
          List.map_cons, List.sum_cons]
        rw [ih _ hk]
        simp

/-- The `len` left by the loop of `rec_fold<true>` is the stored length of
the last field walked. -/
theorem recWalkComp_snd (fs : List DTField) (n : Nat) (hn : n ≠ 0)
    (h : n ≤ fs.length) :
    (recWalkComp fs n).2 =
      (compStored (fs.getD (n - 1) ⟨false, [], 0⟩)).length := by
  induction fs generalizing n with
  | nil =>
    exact absurd (by simpa using h) hn
  | cons f rest ih =>
    cases n with
    | zero => exact absurd rfl hn
    | succ m =>
      cases m with
      | zero => simp [recWalkComp]
      | succ k =>
        have hk : k + 1 ≤ rest.length := by simpa using h
        simp only [recWalkComp, Nat.succ_ne_zero, if_neg]
        rw [ih _ (Nat.succ_ne_zero k) hk]
        simp

/-- Taking, from a flattened list, exactly the length of the first `k`
chunks yields the first `k` chunks. -/
theorem flatten_take_sumLen {α : Type} (l : List (List α)) (k : Nat) :
    l.flatten.take (((l.take k).map List.length).sum) = (l.take k).flatten := by
  have h1 : l.flatten = (l.take k).flatten ++ (l.drop k).flatten := by
    rw [← List.flatten_append, List.take_append_drop]
  rw [h1, ← List.length_flatten, List.take_left]

/-- Fold agreement for ROW_FORMAT comp: on a record generated from the
tuple content, `rec_fold<true>` and `dtuple_fold` hash the same byte
stream, for any parameter pair with at least one accessed field, all
within the tuple. -/
theorem rec_fold_comp_agree (indexId : Nat) (fs : List DTField) (w : Nat)
    (_h1 : 1 ≤ btr_search_get_n_fields w)
    (h2 : btr_search_get_n_fields w ≤ fs.length) :
    rec_fold_comp indexId fs w = dtuple_fold true indexId fs w := by
  unfold rec_fold_comp dtuple_fold
  by_cases hb : w / 2 ^ 16 = 0
  · -- no partial bytes: the prefix is exactly the first u16 w fields
    have hw : w < 2 ^ 16 := by
      by_contra hc
      push_neg at hc
      have h1d : 1 ≤ w / 2 ^ 16 := (Nat.one_le_div_iff (by norm_num)).mpr hc
      omega
    have hnf : btr_search_get_n_fields w = u16 w := by
      unfold btr_search_get_n_fields
      rw [if_neg (by omega)]
      rfl
    rw [if_pos hb, if_neg (by simpa using hb)]
    rw [hnf] at h2 ⊢
    rw [recWalkComp_fst fs _ h2, dtupleFoldFields_comp_eq]
    unfold recBytesComp
    rw [List.map_take, flatten_take_sumLen, ← List.map_take]
  · -- partial bytes: one more field is walked, truncated to min nBytes len
    have hnf : btr_search_get_n_fields w = u16 w + 1 := by
      unfold btr_search_get_n_fields
      rw [if_pos (by
        by_contra hc
        push_neg at hc
        exact hb (Nat.div_eq_of_lt hc))]
    rw [if_neg hb, if_pos (by simpa using hb), hnf]
    rw [hnf] at h2
    have hklt : u16 w < fs.length := by omega
    have hgd : fs.getD (u16 w) ⟨false, [], 0⟩ = fs[u16 w] :=
      List.getD_eq_getElem _ _ hklt
    have hdrop : fs.drop (u16 w) = fs[u16 w] :: fs.drop (u16 w + 1) :=
      List.drop_eq_getElem_cons hklt
    have hfst := recWalkComp_fst fs (u16 w + 1) h2
    have hsnd := recWalkComp_snd fs (u16 w + 1) (Nat.succ_ne_zero _) h2
    rw [Nat.add_sub_cancel, hgd] at hsnd
    have htake : fs.take (u16 w + 1) = fs.take (u16 w) ++ [fs[u16 w]] := by
      rw [List.take_succ, List.getElem?_eq_getElem hklt]
      rfl
    have hS : (((fs.take (u16 w + 1)).map compStored).map List.length).sum =
        (((fs.take (u16 w)).map compStored).map List.length).sum +
          (compStored (fs[u16 w])).length := by
      rw [htake, List.map_append, List.map_append, List.sum_append]
      simp
    have hmin : min (w / 2 ^ 16) (compStored (fs[u16 w])).length ≤
        (compStored (fs[u16 w])).length := Nat.min_le_right ..
    have hn :
        (recWalkComp fs (u16 w + 1)).1 +
          min (w / 2 ^ 16) (recWalkComp fs (u16 w + 1)).2 -
          (recWalkComp fs (u16 w + 1)).2 =
        (((fs.take (u16 w)).map compStored).map List.length).sum +
          min (w / 2 ^ 16) (compStored (fs[u16 w])).length := by
      rw [hfst, hsnd, hS]
      omega
    rw [hn]
    have hAlen : (((fs.take (u16 w)).map compStored)).flatten.length =
        (((fs.take (u16 w)).map compStored).map List.length).sum :=
      List.length_flatten _
    have hsplit : recBytesComp fs =
        ((fs.take (u16 w)).map compStored).flatten ++
          (compStored (fs[u16 w]) ++
            ((fs.drop (u16 w + 1)).map compStored).flatten) := by
      unfold recBytesComp
      conv_lhs => rw [← List.take_append_drop (u16 w) fs]
      rw [List.map_append, List.flatten_append, hdrop, List.map_cons,
        List.flatten_cons]
    rw [hsplit, ← hAlen, List.take_append, myCrc32c_append,
      ← dtupleFoldFields_comp_eq, hdrop]
    cases hnull : (fs[u16 w]).isNull with
    | true =>
      have hcs : compStored (fs[u16 w]) = [] := by
        unfold compStored
        rw [hnull]
        rfl
      rw [hcs]
      simp [hnull, myCrc32c]
    | false =>
      have hcs : compStored (fs[u16 w]) = (fs[u16 w]).bytes := by
        unfold compStored
        rw [hnull]
        rfl
      rw [hcs, List.take_append_of_le_length (by rw [← hcs]; exact hmin)]
      simp [hnull]

/-- C1, evaluated at the failing input: a redundant-format record with two
non-NULL fields of bytes `[7]` and `[1, 2, 3]`, examined with one complete
field and two extra bytes (`n_bytes_fields = 2 << 16 | 1`), hashes the
byte stream `[7, 1]` in `rec_fold` (the code truncates the partial field
at `min(n_bytes, end-of-previous-field) = 1` byte) but `[7, 1, 2]` in
`dtuple_fold` (`min(n_bytes, field_len) = 2` bytes), so the fold values
disagree although the physical and logical content are the same. -/
theorem C1_rec_fold_dtuple_fold_diverge :
    rec_fold_red 0 [⟨false, [7], 0⟩, ⟨false, [1, 2, 3], 0⟩]
        (2 * 2 ^ 16 + 1) ≠
      dtuple_fold false 0 [⟨false, [7], 0⟩, ⟨false, [1, 2, 3], 0⟩]
        (2 * 2 ^ 16 + 1) := by
  decide

/-! ### The hash-table partition and its slab allocator (claims C5, C6, C7)

A chain node (`ahi_node`) carries a fold value and a record pointer; the
`next` pointers of the C code are represented by the position of the
node's address in its cell's chain list.  A node address is a pair
`(page id, byte offset)` into a slab page.  The slab page list `blocks`
is kept most-recently-added first, so the C `UT_LIST_GET_LAST` tail page
is the head of the list. -/

/-- Contents of an `ahi_node` (without the chain pointer, which is
represented structurally). -/
structure AhiNode where
  fold : Nat
  recPtr : Nat
deriving DecidableEq, Repr

/-- Address of a node: (slab page id, byte offset within the page). -/
abbrev Addr := Nat × Nat

/-- sizeof(ahi_node) in the release build: fold (4 bytes + padding),
next (8), rec (8). -/
def nodeSize : Nat := 24

/-- State of one `btr_sea::partition`: the cell array (each cell holding
its chain as a list of node addresses), the node store (address to
contents), the slab page list (head = tail page; each entry is
`(page id, free_offset)`), the spare page, and a fresh-id counter for
pages obtained from the buffer pool. -/
structure PartState where
  cells : List (List Addr)
  store : List (Addr × AhiNode)
  blocks : List (Nat × Nat)
  spare : Option Nat
  nextId : Nat
deriving DecidableEq, Repr

/-- Initial partition state with `m` empty cells. -/
def initPart (m : Nat) : PartState :=
  ⟨List.replicate m [], [], [], none, 0⟩

/-- Read a node from the store (an unallocated address reads as junk). -/
def nodeAt (s : PartState) (a : Addr) : AhiNode :=
  (s.store.lookup a).getD ⟨0, 0⟩

/-- Write a node to the store. -/
def storeSet (st : List (Addr × AhiNode)) (a : Addr) (n : AhiNode) :
    List (Addr × AhiNode) :=
  (a, n) :: st

/-- The cell index of a fold value (`table.calc_hash(fold)` /
`cell_get(fold)`: `fold mod n_cells`). -/
def cellIdx (s : PartState) (fold : Nat) : Nat := fold % s.cells.length

/-- The chain of cell `i`. -/
def chainOf (s : PartState) (i : Nat) : List Addr := s.cells.getD i []

/-- Replace the chain of cell `i`. -/
def setChain (s : PartState) (i : Nat) (l : List Addr) : PartState :=
  { s with cells := s.cells.set i l }

/-- Remove the first occurrence of an address from a chain (unlink). -/
def removeAddr : List Addr → Addr → List Addr
  | [], _ => []
  | b :: l, a => if b = a then l else b :: removeAddr l a

/-- Replace the first occurrence of `old` in a chain by `a` (the C
rewrite of the unique pointer that referenced the moved top node). -/
def replaceAddr : List Addr → Addr → Addr → List Addr
  | [], _, _ => []
  | b :: l, old, a => if b = old then a :: l else b :: replaceAddr l old a

/-- All node addresses reachable from the cells. -/
def allAddrs (s : PartState) : List Addr := s.cells.flatten

/-- btr_sea::partition::prepare_insert (btr0sea.cc lines 295-312): refill
the spare page from the buffer pool if it was consumed. -/
def prepareInsert (s : PartState) : PartState :=
  match s.spare with
  | some _ => s
  | none => { s with spare := some s.nextId, nextId := s.nextId + 1 }

/-- Link a freshly allocated node at address `a` into the tail of the
fold's cell chain and write its contents (the common tail of the two
allocation paths of `btr_sea::partition::insert`). -/
def addNode (s : PartState) (fold rec : Nat) (a : Addr) : PartState :=
  { s with
    store := storeSet s.store a ⟨fold, rec⟩,
    cells := s.cells.set (cellIdx s fold)
      (chainOf s (cellIdx s fold) ++ [a]) }

/-- Consume the spare page as a new tail slab page holding one node, or
silently drop the insert when there is no spare
(btr0sea.cc lines 634-649). -/
def consumeSpare (s : PartState) (fold rec : Nat) : PartState :=
  match s.spare with
  | none => s
  | some sp =>
    { addNode s fold rec (sp, 0) with
      blocks := (sp, nodeSize) :: s.blocks,
      spare := none }

/-- btr_sea::partition::insert (btr0sea.cc lines 578-671) under the
partition write latch: replace the record of an existing node with the
same fold, else bump-allocate a node from the tail slab page, else
consume the spare page, else silently drop the insert; a new node is
appended at the tail of the cell chain. -/
def insertPart (ps : Nat) (s : PartState) (fold rec : Nat) : PartState :=
  match (chainOf s (cellIdx s fold)).find?
      (fun a => (nodeAt s a).fold == fold) with
  | some a => { s with store := storeSet s.store a ⟨fold, rec⟩ }
  | none =>
    match s.blocks with
    | (pid, fo) :: rest =>
      if fo < ps - nodeSize then
        { addNode s fold rec (pid, fo) with
          blocks := (pid, fo + nodeSize) :: rest }
      else consumeSpare s fold rec
    | [] => consumeSpare s fold rec

/-- Shrink the tail slab page by one node after an erase
(btr0sea.cc lines 698-723): decrement `free_offset`; if it reaches zero,
unlink the page, keeping it as the spare when no spare exists and
returning it to the buffer pool otherwise. -/
def shrinkTail (s : PartState) (pid fo : Nat) (rest : List (Nat × Nat)) :
    PartState :=
  if fo - nodeSize = 0 then
    match s.spare with
    | some _ => { s with blocks := rest }
    | none => { s with blocks := rest, spare := some pid }
  else { s with blocks := (pid, fo - nodeSize) :: rest }

/-- btr_sea::partition::cleanup_after_erase (btr0sea.cc lines 673-726):
the erased node `a` has already been unlinked; if it is not the tail
page's top node, copy the top node over it and re-point the single chain
pointer that referenced the top (found in the cell of the top's fold) to
`a`; then shrink the tail page. -/
def cleanupAfterErase (s : PartState) (a : Addr) : PartState :=
  match s.blocks with
  | [] => s
  | (pid, fo) :: rest =>
    if a = (pid, fo - nodeSize) then
      shrinkTail s pid fo rest
    else
      shrinkTail
        { s with
          store := storeSet s.store a (nodeAt s (pid, fo - nodeSize)),
          cells := s.cells.set (cellIdx s (nodeAt s (pid, fo - nodeSize)).fold)
            (replaceAddr
              (chainOf s (cellIdx s (nodeAt s (pid, fo - nodeSize)).fold))
              (pid, fo - nodeSize) a) }
        pid fo rest

/-- btr_sea::partition::erase (btr0sea.cc lines 763-789) under the
partition write latch: unlink the first chain node of the fold's cell
whose record pointer matches, then `cleanup_after_erase`. -/
def erasePart (s : PartState) (fold rec : Nat) : PartState :=
  match (chainOf s (cellIdx s fold)).find?
      (fun a => (nodeAt s a).recPtr == rec) with
  | none => s
  | some a =>
    cleanupAfterErase
      (setChain s (cellIdx s fold)
        (removeAddr (chainOf s (cellIdx s fold)) a)) a

/-- An operation on a partition: refill the spare page, insert, or
erase. -/
inductive PartOp where
  | prep : PartOp
  | ins : Nat → Nat → PartOp
  | ers : Nat → Nat → PartOp
deriving DecidableEq, Repr

/-- Apply one operation (`ps` is `srv_page_size`). -/
def applyOp (ps : Nat) (s : PartState) : PartOp → PartState
  | .prep => prepareInsert s
  | .ins f r => insertPart ps s f r
  | .ers f r => erasePart s f r

/-- Apply a sequence of operations. -/
def applyOps (ps : Nat) (s : PartState) (ops : List PartOp) : PartState :=
  ops.foldl (applyOp ps) s

/-- A live slot: an address inside the allocated range `[0, free_offset)`
of an existing slab page, at a node-aligned offset. -/
def liveAddr (s : PartState) (a : Addr) : Prop :=
  ∃ pb ∈ s.blocks, pb.1 = a.1 ∧ a.2 < pb.2 ∧ a.2 % nodeSize = 0

/-- Well-formedness of a partition state.

* `cellsPos`: the cell array is non-empty;
* `pidsNodup` / `spareFresh` / `pidsLt`: slab page ids are distinct, the
  spare is not a listed page, and ids are below the allocation counter;
* `foAligned` / `foPos` / `foLe`: each page's `free_offset` is a positive
  multiple of the node size, at most the page size;
* `chainsLive`: every chained address is a live slot (nodes occupy
  `[0, free_offset)`);
* `placement`: every node sits in the chain of the cell of its fold;
* `coverage`: every live slot is chained (no leaked nodes);
* `foldsNodup`: the folds of the chained nodes are pairwise distinct (so
  in particular no address is chained twice). -/
structure Inv (ps : Nat) (s : PartState) : Prop where
  cellsPos : 0 < s.cells.length
  pidsNodup : (s.blocks.map Prod.fst).Nodup
  spareFresh : ∀ pid, s.spare = some pid →
    pid ∉ s.blocks.map Prod.fst ∧ pid < s.nextId
  pidsLt : ∀ pb ∈ s.blocks, pb.1 < s.nextId
  foAligned : ∀ pb ∈ s.blocks, pb.2 % nodeSize = 0
  foPos : ∀ pb ∈ s.blocks, 0 < pb.2
  foLe : ∀ pb ∈ s.blocks, pb.2 ≤ ps
  chainsLive : ∀ a ∈ allAddrs s, liveAddr s a
  placement : ∀ i, ∀ a ∈ chainOf s i,
    (nodeAt s a).fold % s.cells.length = i
  coverage : ∀ pb ∈ s.blocks, ∀ k, k * nodeSize < pb.2 →
    (pb.1, k * nodeSize) ∈ allAddrs s
  foldsNodup : ((allAddrs s).map (fun a => (nodeAt s a).fold)).Nodup

/-! #### Helper lemmas for the partition model -/

theorem getD_set_self {α : Type} (l : List α) (i : Nat) (x d : α)
    (h : i < l.length) : (l.set i x).getD i d = x := by
  induction l generalizing i with
  | nil => cases h
  | cons hd tl ih =>
    cases i with
    | zero => rfl
    | succ n => exact ih n (by simpa using h)

theorem getD_set_ne {α : Type} (l : List α) (i j : Nat) (x d : α)
    (h : j ≠ i) : (l.set i x).getD j d = l.getD j d := by
  induction l generalizing i j with
  | nil => rfl
  | cons hd tl ih =>
    cases i with
    | zero =>
      cases j with
      | zero => exact absurd rfl h
      | succ m => rfl
    | succ n =>
      cases j with
      | zero => rfl
      | succ m => exact ih n m (by omega)

theorem permRotate {α : Type} (A B C : List α) :
    List.Perm (A ++ (B ++ C)) (B ++ (A ++ C)) := by
  rw [← List.append_assoc, ← List.append_assoc]
  exact (List.perm_append_comm).append_right C

theorem mem_of_mem_removeAddr {l : List Addr} {a b : Addr}
    (h : b ∈ removeAddr l a) : b ∈ l := by
  induction l with
  | nil => simp [removeAddr] at h
  | cons c l ih =>
    unfold removeAddr at h
    by_cases hc : c = a
    · rw [if_pos hc] at h
      exact List.mem_cons_of_mem c h
    · rw [if_neg hc] at h
      rcases List.mem_cons.mp h with h1 | h1
      · exact h1 ▸ List.mem_cons_self c l
      · exact List.mem_cons_of_mem c (ih h1)

theorem removeAddr_perm {l : List Addr} {a : Addr} (h : a ∈ l) :
    List.Perm l (a :: removeAddr l a) := by
  induction l with
  | nil => cases h
  | cons c l ih =>
    unfold removeAddr
    by_cases hc : c = a
    · rw [if_pos hc, hc]
    · rw [if_neg hc]
      rcases List.mem_cons.mp h with h1 | h1
      · exact absurd h1.symm hc
      · exact ((ih h1).cons c).trans (List.Perm.swap a c _)

theorem replaceAddr_perm {l : List Addr} {old : Addr} (a : Addr)
    (h : old ∈ l) :
    List.Perm (replaceAddr l old a) (a :: removeAddr l old) := by
  induction l with
  | nil => cases h
  | cons c l ih =>
    unfold replaceAddr removeAddr
    by_cases hc : c = old
    · rw [if_pos hc, if_pos hc]
    · rw [if_neg hc, if_neg hc]
      rcases List.mem_cons.mp h with h1 | h1
      · exact absurd h1.symm hc
      · exact ((ih h1).cons c).trans (List.Perm.swap a c _)

theorem cells_decomp (s : PartState) (i : Nat) (h : i < s.cells.length) :
    s.cells = s.cells.take i ++ chainOf s i :: s.cells.drop (i + 1) := by
  conv_lhs => rw [← List.take_append_drop i s.cells,
    List.drop_eq_getElem_cons h]
  congr 1
  unfold chainOf
  rw [List.getD_eq_getElem _ _ h]

theorem allAddrs_perm_decomp (s : PartState) (i : Nat)
    (h : i < s.cells.length) :
    List.Perm (allAddrs s)
      (chainOf s i ++
        ((s.cells.take i).flatten ++ (s.cells.drop (i + 1)).flatten)) := by
  conv_lhs => rw [allAddrs, cells_decomp s i h]
  rw [List.flatten_append, List.flatten_cons]
  exact permRotate ..

theorem allAddrs_setChain_perm (s : PartState) (i : Nat) (x : List Addr)
    (h : i < s.cells.length) :
    List.Perm (allAddrs (setChain s i x))
      (x ++ ((s.cells.take i).flatten ++ (s.cells.drop (i + 1)).flatten)) := by
  show List.Perm (s.cells.set i x).flatten _
  rw [List.set_eq_take_append_cons_drop, if_pos h, List.flatten_append,
    List.flatten_cons]
  exact permRotate ..

theorem chainOf_setChain_self (s : PartState) (i : Nat) (x : List Addr)
    (h : i < s.cells.length) : chainOf (setChain s i x) i = x :=
  getD_set_self s.cells i x [] h

theorem chainOf_setChain_ne (s : PartState) (i j : Nat) (x : List Addr)
    (h : j ≠ i) : chainOf (setChain s i x) j = chainOf s j :=
  getD_set_ne s.cells i j x [] h

theorem lookup_storeSet_self (st : List (Addr × AhiNode)) (a : Addr)
    (n : AhiNode) : (storeSet st a n).lookup a = some n := by
  simp [storeSet, List.lookup]

theorem lookup_storeSet_ne (st : List (Addr × AhiNode)) (a b : Addr)
    (n : AhiNode) (h : b ≠ a) :
    (storeSet st a n).lookup b = st.lookup b := by
  simp only [storeSet, List.lookup]
  rw [show (b == a) = false from beq_eq_false_iff_ne.mpr h]

theorem mem_allAddrs_of_mem_chain {s : PartState} {i : Nat} {a : Addr}
    (ha : a ∈ chainOf s i) : a ∈ allAddrs s := by
  by_cases h : i < s.cells.length
  · refine List.mem_flatten.mpr ⟨chainOf s i, ?_, ha⟩
    unfold chainOf
    rw [List.getD_eq_getElem _ _ h]
    exact List.getElem_mem ..
  · unfold chainOf at ha
    rw [List.getD_eq_default _ _ (by omega)] at ha
    cases ha

theorem exists_chain_of_mem_allAddrs {s : PartState} {a : Addr}
    (ha : a ∈ allAddrs s) :
    ∃ i, i < s.cells.length ∧ a ∈ chainOf s i := by
  obtain ⟨c, hc, hac⟩ := List.mem_flatten.mp ha
  obtain ⟨i, hi⟩ := List.mem_iff_get.mp hc
  refine ⟨i.1, i.2, ?_⟩
  unfold chainOf
  rw [List.getD_eq_getElem _ _ i.2]
  rw [← hi] at hac
  exact hac

/-- Under the placement invariant, a chained node is in the chain of the
cell of its own fold. -/
theorem chain_localize {ps : Nat} {s : PartState} (hInv : Inv ps s)
    {a : Addr} (ha : a ∈ allAddrs s) :
    a ∈ chainOf s ((nodeAt s a).fold % s.cells.length) := by
  obtain ⟨i, hi, hci⟩ := exists_chain_of_mem_allAddrs ha
  rw [hInv.placement i a hci]
  exact hci

theorem cellIdx_lt (s : PartState) (fold : Nat) (h : 0 < s.cells.length) :
    cellIdx s fold < s.cells.length := Nat.mod_lt _ h

theorem nodeAt_addNode_self (s : PartState) (fold rec : Nat) (a : Addr) :
    nodeAt (addNode s fold rec a) a = ⟨fold, rec⟩ := by
  show ((storeSet s.store a ⟨fold, rec⟩).lookup a).getD _ = _
  rw [lookup_storeSet_self]
  rfl

theorem nodeAt_addNode_ne (s : PartState) (fold rec : Nat) (a b : Addr)
    (h : b ≠ a) : nodeAt (addNode s fold rec a) b = nodeAt s b := by
  show ((storeSet s.store a ⟨fold, rec⟩).lookup b).getD _ = _
  rw [lookup_storeSet_ne _ _ _ _ h]
  rfl

theorem chainOf_addNode_self (s : PartState) (fold rec : Nat) (a : Addr)
    (h : 0 < s.cells.length) :
    chainOf (addNode s fold rec a) (cellIdx s fold) =
      chainOf s (cellIdx s fold) ++ [a] :=
  getD_set_self _ _ _ _ (cellIdx_lt s fold h)

theorem chainOf_addNode_ne (s : PartState) (fold rec : Nat) (a : Addr)
    (j : Nat) (hj : j ≠ cellIdx s fold) :
    chainOf (addNode s fold rec a) j = chainOf s j :=
  getD_set_ne _ _ _ _ _ hj

theorem allAddrs_addNode_perm (s : PartState) (fold rec : Nat) (a : Addr)
    (h : 0 < s.cells.length) :
    List.Perm (allAddrs (addNode s fold rec a)) (a :: allAddrs s) := by
  have hi := cellIdx_lt s fold h
  have h1 := allAddrs_setChain_perm s (cellIdx s fold)
    (chainOf s (cellIdx s fold) ++ [a]) hi
  refine List.Perm.trans h1 ?_
  refine List.Perm.trans
    ((List.perm_append_singleton a _).append_right _) ?_
  exact ((allAddrs_perm_decomp s (cellIdx s fold) hi).symm.cons a)

/-- When the insert scan found no node of the given fold in its cell,
no chained node anywhere has that fold (placement localizes folds to
their cells). -/
theorem fold_not_in_chains {ps : Nat} {s : PartState} (h : Inv ps s)
    {fold : Nat}
    (hfind : (chainOf s (cellIdx s fold)).find?
      (fun x => (nodeAt s x).fold == fold) = none)
    {b : Addr} (hb : b ∈ allAddrs s) : (nodeAt s b).fold ≠ fold := by
  intro heq
  have hloc := chain_localize h hb
  rw [heq] at hloc
  have hnone := List.find?_eq_none.mp hfind b hloc
  simp only [beq_iff_eq] at hnone
  exact hnone heq

/-- prepare_insert preserves the invariant. -/
theorem Inv_prepareInsert {ps : Nat} {s : PartState} (h : Inv ps s) :
    Inv ps (prepareInsert s) := by
  unfold prepareInsert
  cases hsp : s.spare with
  | some sp => exact h
  | none =>
    show Inv ps { s with spare := some s.nextId, nextId := s.nextId + 1 }
    refine ⟨h.cellsPos, h.pidsNodup, ?_, ?_, h.foAligned, h.foPos, h.foLe,
      h.chainsLive, h.placement, h.coverage, h.foldsNodup⟩
    · intro pid hpid
      have hpe : pid = s.nextId := (Option.some.inj hpid).symm
      subst hpe
      constructor
      · intro hmem
        obtain ⟨pb, hpb, hfst⟩ := List.mem_map.mp hmem
        have := h.pidsLt pb hpb
        omega
      · show s.nextId < s.nextId + 1
        omega
    · intro pb hpb
      have := h.pidsLt pb hpb
      show pb.1 < s.nextId + 1
      omega

theorem placement_addNode {ps : Nat} {s : PartState} (h : Inv ps s)
    (fold rec : Nat) (a₀ : Addr) (hfresh : a₀ ∉ allAddrs s) :
    ∀ i, ∀ b ∈ chainOf (addNode s fold rec a₀) i,
      (nodeAt (addNode s fold rec a₀) b).fold % s.cells.length = i := by
  intro i b hb
  by_cases hi : i = cellIdx s fold
  · subst hi
    rw [chainOf_addNode_self s fold rec a₀ h.cellsPos] at hb
    rcases List.mem_append.mp hb with h1 | h1
    · have hbne : b ≠ a₀ := fun he => hfresh (he ▸ mem_allAddrs_of_mem_chain h1)
      rw [nodeAt_addNode_ne s fold rec a₀ b hbne]
      exact h.placement _ b h1
    · have hbe : b = a₀ := List.mem_singleton.mp h1
      subst hbe
      rw [nodeAt_addNode_self]
      rfl
  · rw [chainOf_addNode_ne s fold rec a₀ i hi] at hb
    have hbne : b ≠ a₀ := fun he => hfresh (he ▸ mem_allAddrs_of_mem_chain hb)
    rw [nodeAt_addNode_ne s fold rec a₀ b hbne]
    exact h.placement i b hb

theorem foldsNodup_addNode {ps : Nat} {s : PartState} (h : Inv ps s)
    (fold rec : Nat) (a₀ : Addr) (hfresh : a₀ ∉ allAddrs s)
    (hfind : (chainOf s (cellIdx s fold)).find?
      (fun x => (nodeAt s x).fold == fold) = none) :
    ((allAddrs (addNode s fold rec a₀)).map
      (fun b => (nodeAt (addNode s fold rec a₀) b).fold)).Nodup := by
  have hperm := (allAddrs_addNode_perm s fold rec a₀ h.cellsPos).map
    (fun b => (nodeAt (addNode s fold rec a₀) b).fold)
  rw [hperm.nodup_iff, List.map_cons, nodeAt_addNode_self]
  have hmap : (allAddrs s).map
        (fun b => (nodeAt (addNode s fold rec a₀) b).fold) =
      (allAddrs s).map (fun b => (nodeAt s b).fold) := by
    apply List.map_congr_left
    intro b hb
    rw [nodeAt_addNode_ne s fold rec a₀ b (fun he => hfresh (he ▸ hb))]
  rw [hmap]
  refine List.nodup_cons.mpr ⟨?_, h.foldsNodup⟩
  intro hmem
  obtain ⟨b, hb, hbf⟩ := List.mem_map.mp hmem
  exact fold_not_in_chains h hfind hb hbf

theorem mem_allAddrs_addNode (s : PartState) (fold rec : Nat) (a₀ : Addr)
    (h0 : 0 < s.cells.length) {b : Addr} :
    b ∈ allAddrs (addNode s fold rec a₀) ↔ b = a₀ ∨ b ∈ allAddrs s := by
  rw [(allAddrs_addNode_perm s fold rec a₀ h0).mem_iff]
  exact List.mem_cons

/-- Consuming the spare page preserves the invariant when the fold was
not found in its cell chain. -/
theorem Inv_consumeSpare {ps : Nat} {s : PartState} (h : Inv ps s)
    (hps : nodeSize ≤ ps) (fold rec : Nat)
    (hfind : (chainOf s (cellIdx s fold)).find?
      (fun a => (nodeAt s a).fold == fold) = none) :
    Inv ps (consumeSpare s fold rec) := by
  unfold consumeSpare
  cases hsp : s.spare with
  | none => exact h
  | some sp =>
    obtain ⟨hspm, hsplt⟩ := h.spareFresh sp hsp
    show Inv ps { addNode s fold rec (sp, 0) with
      blocks := (sp, nodeSize) :: s.blocks, spare := none }
    have hfresh : ((sp, 0) : Addr) ∉ allAddrs s := by
      intro hmem
      obtain ⟨pb, hpb, hfst, _, _⟩ := h.chainsLive _ hmem
      exact hspm (List.mem_map.mpr ⟨pb, hpb, hfst⟩)
    refine ⟨?_, ?_, ?_, ?_, ?_, ?_, ?_, ?_, ?_, ?_, ?_⟩
    · show 0 < (s.cells.set _ _).length
      rw [List.length_set]
      exact h.cellsPos
    · show (sp :: s.blocks.map Prod.fst).Nodup
      exact List.nodup_cons.mpr ⟨hspm, h.pidsNodup⟩
    · intro pid hpid
      cases hpid
    · intro pb hpb
      rcases List.mem_cons.mp hpb with h1 | h1
      · show pb.1 < s.nextId
        rw [h1]
        exact hsplt
      · exact h.pidsLt pb h1
    · intro pb hpb
      rcases List.mem_cons.mp hpb with h1 | h1
      · rw [h1]
        show nodeSize % nodeSize = 0
        decide
      · exact h.foAligned pb h1
    · intro pb hpb
      rcases List.mem_cons.mp hpb with h1 | h1
      · rw [h1]
        show 0 < nodeSize
        decide
      · exact h.foPos pb h1
    · intro pb hpb
      rcases List.mem_cons.mp hpb with h1 | h1
      · rw [h1]
        show nodeSize ≤ ps
        exact hps
      · exact h.foLe pb h1
    · intro b hb
      rcases (mem_allAddrs_addNode s fold rec (sp, 0) h.cellsPos).mp hb with h1 | h1
      · subst h1
        refine ⟨(sp, nodeSize), List.mem_cons_self .., rfl, ?_, ?_⟩
        · show (0 : Nat) < nodeSize
          decide
        · show (0 : Nat) % nodeSize = 0
          decide
      · obtain ⟨pb, hpb, hfst, hlt, hal⟩ := h.chainsLive b h1
        exact ⟨pb, List.mem_cons_of_mem _ hpb, hfst, hlt, hal⟩
    · show ∀ i, ∀ b ∈ chainOf (addNode s fold rec (sp, 0)) i,
        (nodeAt (addNode s fold rec (sp, 0)) b).fold %
          (s.cells.set (cellIdx s fold)
            (chainOf s (cellIdx s fold) ++ [(sp, 0)])).length = i
      rw [List.length_set]
      exact placement_addNode h fold rec (sp, 0) hfresh
    · intro pb hpb k hk
      rcases List.mem_cons.mp hpb with h1 | h1
      · have hk0 : k = 0 := by
          rw [h1] at hk
          by_contra hne
          have : nodeSize ≤ k * nodeSize := by
            calc nodeSize = 1 * nodeSize := (Nat.one_mul _).symm
            _ ≤ k * nodeSize := Nat.mul_le_mul_right _ (by omega)
          omega
        subst hk0
        rw [h1]
        exact (mem_allAddrs_addNode s fold rec (sp, 0) h.cellsPos).mpr
          (Or.inl rfl)
      · have := h.coverage pb h1 k hk
        exact (mem_allAddrs_addNode s fold rec (sp, 0) h.cellsPos).mpr
          (Or.inr this)
    · exact foldsNodup_addNode h fold rec (sp, 0) hfresh hfind

/-- partition::insert preserves the invariant. -/
theorem Inv_insertPart {ps : Nat} {s : PartState} (h : Inv ps s)
    (hps : nodeSize ≤ ps) (fold rec : Nat) :
    Inv ps (insertPart ps s fold rec) := by
  unfold insertPart
  cases hfind : (chainOf s (cellIdx s fold)).find?
      (fun a => (nodeAt s a).fold == fold) with
  | some a =>
    -- collision replacement: only the record pointer of node `a` changes
    have hmem : a ∈ chainOf s (cellIdx s fold) :=
      List.mem_of_find?_eq_some hfind
    have hfa : (nodeAt s a).fold = fold := by
      have := List.find?_some hfind
      simpa using this
    have hna : ∀ b, nodeAt { s with store := storeSet s.store a ⟨fold, rec⟩ } b
        = (if b = a then ⟨fold, rec⟩ else nodeAt s b) := by
      intro b
      by_cases hba : b = a
      · subst hba
        rw [if_pos rfl]
        show ((storeSet s.store b ⟨fold, rec⟩).lookup b).getD _ = _
        rw [lookup_storeSet_self]
        rfl
      · rw [if_neg hba]
        show ((storeSet s.store a ⟨fold, rec⟩).lookup b).getD _ = _
        rw [lookup_storeSet_ne _ _ _ _ hba]
        rfl
    have hfoldeq : ∀ b, (nodeAt { s with store := storeSet s.store a ⟨fold, rec⟩ } b).fold
        = (nodeAt s b).fold := by
      intro b
      rw [hna b]
      by_cases hba : b = a
      · rw [if_pos hba, hba, hfa]
      · rw [if_neg hba]
    refine ⟨h.cellsPos, h.pidsNodup, h.spareFresh, h.pidsLt, h.foAligned,
      h.foPos, h.foLe, h.chainsLive, ?_, h.coverage, ?_⟩
    · intro i b hb
      rw [hfoldeq b]
      exact h.placement i b hb
    · have : (allAddrs s).map
          (fun b => (nodeAt { s with store := storeSet s.store a ⟨fold, rec⟩ } b).fold)
          = (allAddrs s).map (fun b => (nodeAt s b).fold) := by
        apply List.map_congr_left
        intro b _
        exact hfoldeq b
      show ((allAddrs s).map _).Nodup
      rw [this]
      exact h.foldsNodup
  | none =>
    cases hblocks : s.blocks with
    | nil => exact Inv_consumeSpare h hps fold rec hfind
    | cons pb rest =>
      obtain ⟨pid, fo⟩ := pb
      show Inv ps (if fo < ps - nodeSize then
          { addNode s fold rec (pid, fo) with
            blocks := (pid, fo + nodeSize) :: rest }
        else consumeSpare s fold rec)
      by_cases hroom : fo < ps - nodeSize
      · rw [if_pos hroom]
        have hhead : ((pid, fo) : Nat × Nat) ∈ s.blocks := by
          rw [hblocks]
          exact List.mem_cons_self ..
        have hfoal : fo % nodeSize = 0 := h.foAligned _ hhead
        have hfresh : ((pid, fo) : Addr) ∉ allAddrs s := by
          intro hmem
          obtain ⟨pb', hpb', hfst, hlt, _⟩ := h.chainsLive _ hmem
          have : pb' = (pid, fo) :=
            List.inj_on_of_nodup_map h.pidsNodup hpb' hhead hfst
          rw [this] at hlt
          omega
        refine ⟨?_, ?_, ?_, ?_, ?_, ?_, ?_, ?_, ?_, ?_, ?_⟩
        · show 0 < (s.cells.set _ _).length
          rw [List.length_set]
          exact h.cellsPos
        · show ((pid, fo + nodeSize) :: rest |>.map Prod.fst).Nodup
          have := h.pidsNodup
          rw [hblocks] at this
          exact this
        · intro p hp
          obtain ⟨hm, hlt⟩ := h.spareFresh p hp
          constructor
          · rw [hblocks] at hm
            exact hm
          · exact hlt
        · intro pb' hpb'
          rcases List.mem_cons.mp hpb' with h1 | h1
          · rw [h1]
            show pid < s.nextId
            exact h.pidsLt _ hhead
          · exact h.pidsLt pb' (by rw [hblocks]; exact List.mem_cons_of_mem _ h1)
        · intro pb' hpb'
          rcases List.mem_cons.mp hpb' with h1 | h1
          · rw [h1]
            show (fo + nodeSize) % nodeSize = 0
            have h24 : nodeSize = 24 := rfl
            rw [h24] at hfoal ⊢
            omega
          · exact h.foAligned pb' (by rw [hblocks]; exact List.mem_cons_of_mem _ h1)
        · intro pb' hpb'
          rcases List.mem_cons.mp hpb' with h1 | h1
          · rw [h1]
            show 0 < fo + nodeSize
            have : nodeSize = 24 := rfl
            omega
          · exact h.foPos pb' (by rw [hblocks]; exact List.mem_cons_of_mem _ h1)
        · intro pb' hpb'
          rcases List.mem_cons.mp hpb' with h1 | h1
          · rw [h1]
            show fo + nodeSize ≤ ps
            omega
          · exact h.foLe pb' (by rw [hblocks]; exact List.mem_cons_of_mem _ h1)
        · intro b hb
          rcases (mem_allAddrs_addNode s fold rec (pid, fo) h.cellsPos).mp hb with h1 | h1
          · subst h1
            refine ⟨(pid, fo + nodeSize), List.mem_cons_self .., rfl, ?_, hfoal⟩
            show fo < fo + nodeSize
            have h24 : nodeSize = 24 := rfl
            omega
          · obtain ⟨pb', hpb', hfst, hlt, hal⟩ := h.chainsLive b h1
            rw [hblocks] at hpb'
            rcases List.mem_cons.mp hpb' with h2 | h2
            · refine ⟨(pid, fo + nodeSize), List.mem_cons_self .., ?_, ?_, hal⟩
              · rw [h2] at hfst
                exact hfst
              · rw [h2] at hlt
                show b.2 < fo + nodeSize
                omega
            · exact ⟨pb', List.mem_cons_of_mem _ h2, hfst, hlt, hal⟩
        · show ∀ i, ∀ b ∈ chainOf (addNode s fold rec (pid, fo)) i,
            (nodeAt (addNode s fold rec (pid, fo)) b).fold %
              (s.cells.set (cellIdx s fold)
                (chainOf s (cellIdx s fold) ++ [(pid, fo)])).length = i
          rw [List.length_set]
          exact placement_addNode h fold rec (pid, fo) hfresh
        · intro pb' hpb' k hk
          rcases List.mem_cons.mp hpb' with h1 | h1
          · rw [h1]
            rw [h1] at hk
            by_cases hkfo : k * nodeSize < fo
            · have := h.coverage _ hhead k hkfo
              exact (mem_allAddrs_addNode s fold rec (pid, fo) h.cellsPos).mpr
                (Or.inr this)
            · have hke : k * nodeSize = fo := by
                show k * 24 = fo
                have h24 : nodeSize = 24 := rfl
                rw [h24] at hk hkfo hfoal
                omega
              rw [hke]
              exact (mem_allAddrs_addNode s fold rec (pid, fo) h.cellsPos).mpr
                (Or.inl rfl)
          · have := h.coverage pb'
              (by rw [hblocks]; exact List.mem_cons_of_mem _ h1) k hk
            exact (mem_allAddrs_addNode s fold rec (pid, fo) h.cellsPos).mpr
              (Or.inr this)
        · exact foldsNodup_addNode h fold rec (pid, fo) hfresh hfind
      · rw [if_neg hroom]
        exact Inv_consumeSpare h hps fold rec hfind


theorem mem_removeAddr_of_ne {l : List Addr} {a b : Addr} (hb : b ∈ l)
    (hne : b ≠ a) : b ∈ removeAddr l a := by
  induction l with
  | nil => cases hb
  | cons c l ih =>
    unfold removeAddr
    by_cases hc : c = a
    · rw [if_pos hc]
      rcases List.mem_cons.mp hb with h1 | h1
      · exact absurd (h1.trans hc) hne
      · exact h1
    · rw [if_neg hc]
      rcases List.mem_cons.mp hb with h1 | h1
      · exact h1 ▸ List.mem_cons_self ..
      · exact List.mem_cons_of_mem _ (ih h1)

theorem allAddrs_unlink_perm (s : PartState) (i : Nat) (a : Addr)
    (hi : i < s.cells.length) (ha : a ∈ chainOf s i) :
    List.Perm (allAddrs s)
      (a :: allAddrs (setChain s i (removeAddr (chainOf s i) a))) := by
  refine (allAddrs_perm_decomp s i hi).trans ?_
  refine List.Perm.trans ((removeAddr_perm ha).append_right _) ?_
  exact ((allAddrs_setChain_perm s i (removeAddr (chainOf s i) a) hi).symm.cons a)

/-- Shrinking the tail slab page preserves the invariant, given that the
pre-shrink chain state `t` no longer references the top slot and is
otherwise sound against the original state `s`. -/
theorem Inv_shrinkTail {ps : Nat} {s t : PartState} (h : Inv ps s)
    (pid fo : Nat) (rest : List (Nat × Nat))
    (hsb : s.blocks = (pid, fo) :: rest)
    (hts : t.spare = s.spare)
    (htn : t.nextId = s.nextId)
    (hlen : t.cells.length = s.cells.length)
    (hlive : ∀ b ∈ allAddrs t, liveAddr s b ∧ b ≠ (pid, fo - nodeSize))
    (hplace : ∀ i, ∀ b ∈ chainOf t i,
      (nodeAt t b).fold % t.cells.length = i)
    (hnodup : ((allAddrs t).map (fun b => (nodeAt t b).fold)).Nodup)
    (hcov : ∀ x ∈ allAddrs s, x ≠ (pid, fo - nodeSize) → x ∈ allAddrs t) :
    Inv ps (shrinkTail t pid fo rest) := by
  have h24 : nodeSize = 24 := rfl
  have hhead : ((pid, fo) : Nat × Nat) ∈ s.blocks := by
    rw [hsb]
    exact List.mem_cons_self ..
  have hfoal : fo % nodeSize = 0 := h.foAligned _ hhead
  have hfopos : 0 < fo := h.foPos _ hhead
  have hfole : fo ≤ ps := h.foLe _ hhead
  have hrestmem : ∀ pb ∈ rest, pb ∈ s.blocks := by
    intro pb hpb
    rw [hsb]
    exact List.mem_cons_of_mem _ hpb
  have hrestpid : ∀ pb ∈ rest, pb.1 ≠ pid := by
    intro pb hpb heq
    have hnd := h.pidsNodup
    rw [hsb] at hnd
    have := (List.nodup_cons.mp hnd).1
    exact this (List.mem_map.mpr ⟨pb, hpb, heq⟩)
  -- liveness of a chained address of t in the final block list
  have hliveFin : ∀ (bl : List (Nat × Nat)),
      ((pid, fo - nodeSize) ∈ bl ∨ fo - nodeSize = 0) →
      (∀ pb ∈ rest, pb ∈ bl) →
      ∀ b ∈ allAddrs t, ∃ pb ∈ bl, pb.1 = b.1 ∧ b.2 < pb.2 ∧
        b.2 % nodeSize = 0 := by
    intro bl hhd hrest b hb
    obtain ⟨⟨pb, hpb, hfst, hlt, hal⟩, hne⟩ := hlive b hb
    rw [hsb] at hpb
    rcases List.mem_cons.mp hpb with h1 | h1
    · -- b lives in the shrinking page: it avoids the top slot
      have hb2 : b.2 < fo - nodeSize := by
        have hble : b.2 ≤ fo - nodeSize := by
          rw [h24] at hal hfoal ⊢
          rw [h1] at hlt
          omega
        rcases Nat.lt_or_ge b.2 (fo - nodeSize) with hlt2 | hge
        · exact hlt2
        · exfalso
          apply hne
          have : b.2 = fo - nodeSize := by omega
          rw [h1] at hfst
          exact Prod.ext hfst.symm this
      rcases hhd with h2 | h2
      · refine ⟨(pid, fo - nodeSize), h2, ?_, hb2, hal⟩
        rw [h1] at hfst
        exact hfst
      · rw [h2] at hb2
        cases Nat.not_lt_zero _ hb2
    · exact ⟨pb, hrest pb h1, hfst, hlt, hal⟩
  -- coverage of a page of the final list
  have hcovFin : ∀ pb ∈ rest, ∀ k, k * nodeSize < pb.2 →
      ((pb.1, k * nodeSize) : Addr) ∈ allAddrs t := by
    intro pb hpb k hk
    refine hcov _ (h.coverage pb (hrestmem pb hpb) k hk) ?_
    intro heq
    exact hrestpid pb hpb (congrArg Prod.fst heq)
  unfold shrinkTail
  by_cases hz : fo - nodeSize = 0
  · rw [if_pos hz, hts]
    cases hsp : s.spare with
    | some sp =>
      obtain ⟨hspm, hsplt⟩ := h.spareFresh sp hsp
      refine ⟨by rw [hlen]; exact h.cellsPos, ?_, ?_, ?_, ?_, ?_, ?_, ?_,
        hplace, ?_, hnodup⟩
      · have hnd := h.pidsNodup
        rw [hsb] at hnd
        exact (List.nodup_cons.mp hnd).2
      · intro p hp
        have hpe : p = sp := (Option.some.inj hp).symm
        constructor
        · intro hmem
          apply hspm
          rw [← hpe]
          obtain ⟨pb, hpb, hfst⟩ := List.mem_map.mp hmem
          rw [hsb]
          exact List.mem_map.mpr ⟨pb, List.mem_cons_of_mem _ hpb, hfst⟩
        · show p < t.nextId
          rw [hpe, htn]
          exact hsplt
      · intro pb hpb
        show pb.1 < t.nextId
        rw [htn]
        exact h.pidsLt pb (hrestmem pb hpb)
      · intro pb hpb
        exact h.foAligned pb (hrestmem pb hpb)
      · intro pb hpb
        exact h.foPos pb (hrestmem pb hpb)
      · intro pb hpb
        exact h.foLe pb (hrestmem pb hpb)
      · intro b hb
        exact hliveFin rest (Or.inr hz) (fun pb hpb => hpb) b hb
      · intro pb hpb k hk
        exact hcovFin pb hpb k hk
    | none =>
      refine ⟨by rw [hlen]; exact h.cellsPos, ?_, ?_, ?_, ?_, ?_, ?_, ?_,
        hplace, ?_, hnodup⟩
      · have hnd := h.pidsNodup
        rw [hsb] at hnd
        exact (List.nodup_cons.mp hnd).2
      · intro p hp
        have hpe : p = pid := (Option.some.inj hp).symm
        constructor
        · intro hmem
          obtain ⟨pb, hpb, hfst⟩ := List.mem_map.mp hmem
          exact hrestpid pb hpb (hfst.trans hpe)
        · show p < t.nextId
          rw [hpe, htn]
          exact h.pidsLt _ hhead
      · intro pb hpb
        show pb.1 < t.nextId
        rw [htn]
        exact h.pidsLt pb (hrestmem pb hpb)
      · intro pb hpb
        exact h.foAligned pb (hrestmem pb hpb)
      · intro pb hpb
        exact h.foPos pb (hrestmem pb hpb)
      · intro pb hpb
        exact h.foLe pb (hrestmem pb hpb)
      · intro b hb
        exact hliveFin rest (Or.inr hz) (fun pb hpb => hpb) b hb
      · intro pb hpb k hk
        exact hcovFin pb hpb k hk
  · rw [if_neg hz]
    refine ⟨by rw [hlen]; exact h.cellsPos, ?_, ?_, ?_, ?_, ?_, ?_, ?_,
      hplace, ?_, hnodup⟩
    · show ((pid, fo - nodeSize) :: rest |>.map Prod.fst).Nodup
      have hnd := h.pidsNodup
      rw [hsb] at hnd
      exact hnd
    · intro p hp
      obtain ⟨hm, hlt⟩ := h.spareFresh p (hts ▸ hp)
      refine ⟨?_, by rw [htn]; exact hlt⟩
      intro hmem
      apply hm
      rw [hsb]
      rcases List.mem_map.mp hmem with ⟨pb, hpb, hfst⟩
      rcases List.mem_cons.mp hpb with h1 | h1
      · exact List.mem_map.mpr ⟨(pid, fo), List.mem_cons_self .., by
          rw [h1] at hfst
          exact hfst⟩
      · exact List.mem_map.mpr ⟨pb, List.mem_cons_of_mem _ h1, hfst⟩
    · intro pb hpb
      rcases List.mem_cons.mp hpb with h1 | h1
      · rw [h1]
        show pid < t.nextId
        rw [htn]
        exact h.pidsLt _ hhead
      · show pb.1 < t.nextId
        rw [htn]
        exact h.pidsLt pb (hrestmem pb h1)
    · intro pb hpb
      rcases List.mem_cons.mp hpb with h1 | h1
      · rw [h1]
        show (fo - nodeSize) % nodeSize = 0
        rw [h24] at hfoal ⊢
        omega
      · exact h.foAligned pb (hrestmem pb h1)
    · intro pb hpb
      rcases List.mem_cons.mp hpb with h1 | h1
      · rw [h1]
        show 0 < fo - nodeSize
        omega
      · exact h.foPos pb (hrestmem pb h1)
    · intro pb hpb
      rcases List.mem_cons.mp hpb with h1 | h1
      · rw [h1]
        show fo - nodeSize ≤ ps
        omega
      · exact h.foLe pb (hrestmem pb h1)
    · intro b hb
      exact hliveFin ((pid, fo - nodeSize) :: rest)
        (Or.inl (List.mem_cons_self ..))
        (fun pb hpb => List.mem_cons_of_mem _ hpb) b hb
    · intro pb hpb k hk
      rcases List.mem_cons.mp hpb with h1 | h1
      · -- the shrunken page: its covered slots avoid the top slot
        rw [h1] at hk ⊢
        refine hcov _ (h.coverage _ hhead k (by
          show k * nodeSize < fo
          rw [h24] at hk ⊢
          omega)) ?_
        intro heq
        have : k * nodeSize = fo - nodeSize := congrArg Prod.snd heq
        rw [h24] at hk this
        omega
      · exact hcovFin pb h1 k hk

/-- The swap step of cleanup_after_erase (the erased node was not the
top): moving the top node into the erased slot and re-pointing its chain
reference, followed by the tail shrink, preserves the invariant. -/
theorem Inv_cleanup_swap {ps : Nat} {s s1 : PartState} (h : Inv ps s)
    (a top : Addr) (pid fo : Nat) (rest : List (Nat × Nat))
    (hsb : s.blocks = (pid, fo) :: rest)
    (hspare : s1.spare = s.spare) (hnext : s1.nextId = s.nextId)
    (hstore : s1.store = s.store) (hlen : s1.cells.length = s.cells.length)
    (hperm : List.Perm (allAddrs s) (a :: allAddrs s1))
    (hsub : ∀ i, ∀ b ∈ chainOf s1 i, b ∈ chainOf s i)
    (hliveA : liveAddr s a)
    (htopeq : top = (pid, fo - nodeSize))
    (hat : a ≠ top)
    (htopmem : top ∈ allAddrs s) :
    Inv ps (shrinkTail
      { s1 with
        store := storeSet s1.store a (nodeAt s1 top),
        cells := s1.cells.set (cellIdx s1 (nodeAt s1 top).fold)
          (replaceAddr (chainOf s1 (cellIdx s1 (nodeAt s1 top).fold)) top a) }
      pid fo rest) := by
  have hnodupS : (allAddrs s).Nodup := h.foldsNodup.of_map
  have hnodupCons : (a :: allAddrs s1).Nodup := hperm.nodup_iff.mp hnodupS
  have ha1 : a ∉ allAddrs s1 := (List.nodup_cons.mp hnodupCons).1
  have hnodup1 : (allAddrs s1).Nodup := (List.nodup_cons.mp hnodupCons).2
  have hnode1 : ∀ b, nodeAt s1 b = nodeAt s b := by
    intro b
    unfold nodeAt
    rw [hstore]
  have hmem1 : ∀ b ∈ allAddrs s1, b ∈ allAddrs s := fun b hb =>
    hperm.mem_iff.mpr (List.mem_cons_of_mem a hb)
  have hcp1 : 0 < s1.cells.length := by
    rw [hlen]
    exact h.cellsPos
  have htop1 : top ∈ allAddrs s1 := by
    rcases List.mem_cons.mp (hperm.mem_iff.mp htopmem) with h1 | h1
    · exact absurd h1.symm hat
    · exact h1
  -- the cell of the top node
  have hj : cellIdx s1 (nodeAt s1 top).fold < s1.cells.length :=
    cellIdx_lt s1 _ hcp1
  have hjtop : top ∈ chainOf s1 (cellIdx s1 (nodeAt s1 top).fold) := by
    obtain ⟨i, hi, hci⟩ := exists_chain_of_mem_allAddrs htop1
    have hpl := h.placement i top (hsub i top hci)
    have : cellIdx s1 (nodeAt s1 top).fold = i := by
      show (nodeAt s1 top).fold % s1.cells.length = i
      rw [hnode1, hlen]
      exact hpl
    rw [this]
    exact hci
  -- the untouched remainder of the multiset of chained addresses
  have hpermA : List.Perm (allAddrs s1)
      ((top :: removeAddr (chainOf s1 (cellIdx s1 (nodeAt s1 top).fold)) top) ++
        ((s1.cells.take (cellIdx s1 (nodeAt s1 top).fold)).flatten ++
          (s1.cells.drop (cellIdx s1 (nodeAt s1 top).fold + 1)).flatten)) := by
    refine (allAddrs_perm_decomp s1 _ hj).trans ?_
    exact (removeAddr_perm hjtop).append_right _
  have hpermB : List.Perm
      ((s1.cells.set (cellIdx s1 (nodeAt s1 top).fold)
        (replaceAddr (chainOf s1 (cellIdx s1 (nodeAt s1 top).fold)) top a)).flatten)
      ((a :: removeAddr (chainOf s1 (cellIdx s1 (nodeAt s1 top).fold)) top) ++
        ((s1.cells.take (cellIdx s1 (nodeAt s1 top).fold)).flatten ++
          (s1.cells.drop (cellIdx s1 (nodeAt s1 top).fold + 1)).flatten)) := by
    refine (allAddrs_setChain_perm s1 _ _ hj).trans ?_
    exact (replaceAddr_perm a hjtop).append_right _
  have hnodupTopL : ((top :: removeAddr (chainOf s1 (cellIdx s1 (nodeAt s1 top).fold)) top) ++
      ((s1.cells.take (cellIdx s1 (nodeAt s1 top).fold)).flatten ++
        (s1.cells.drop (cellIdx s1 (nodeAt s1 top).fold + 1)).flatten)).Nodup :=
    hpermA.nodup_iff.mp hnodup1
  have htopnotL : top ∉
      (removeAddr (chainOf s1 (cellIdx s1 (nodeAt s1 top).fold)) top ++
        ((s1.cells.take (cellIdx s1 (nodeAt s1 top).fold)).flatten ++
          (s1.cells.drop (cellIdx s1 (nodeAt s1 top).fold + 1)).flatten)) :=
    (List.nodup_cons.mp hnodupTopL).1
  have hmemL : ∀ b ∈
      (removeAddr (chainOf s1 (cellIdx s1 (nodeAt s1 top).fold)) top ++
        ((s1.cells.take (cellIdx s1 (nodeAt s1 top).fold)).flatten ++
          (s1.cells.drop (cellIdx s1 (nodeAt s1 top).fold + 1)).flatten)),
      b ∈ allAddrs s1 := by
    intro b hb
    exact hpermA.mem_iff.mpr (List.mem_cons_of_mem top hb)
  -- the node store of the swap state
  have hnodeT : ∀ b,
      nodeAt { s1 with
        store := storeSet s1.store a (nodeAt s1 top),
        cells := s1.cells.set (cellIdx s1 (nodeAt s1 top).fold)
          (replaceAddr (chainOf s1 (cellIdx s1 (nodeAt s1 top).fold)) top a) } b =
      (if b = a then nodeAt s top else nodeAt s b) := by
    intro b
    by_cases hba : b = a
    · rw [if_pos hba, hba]
      show ((storeSet s1.store a (nodeAt s1 top)).lookup a).getD _ = _
      rw [lookup_storeSet_self]
      show nodeAt s1 top = nodeAt s top
      exact hnode1 top
    · rw [if_neg hba]
      show ((storeSet s1.store a (nodeAt s1 top)).lookup b).getD _ = _
      rw [lookup_storeSet_ne _ _ _ _ hba]
      show nodeAt s1 b = nodeAt s b
      exact hnode1 b
  refine Inv_shrinkTail h pid fo rest hsb hspare hnext
    (by rw [List.length_set]; exact hlen) ?_ ?_ ?_ ?_
  · -- liveness and top-avoidance of the swap state's chains
    intro b hb
    rcases List.mem_cons.mp (hpermB.mem_iff.mp hb) with h1 | h1
    · subst h1
      exact ⟨hliveA, htopeq ▸ hat⟩
    · refine ⟨h.chainsLive b (hmem1 b (hmemL b h1)), ?_⟩
      intro he
      rw [← htopeq] at he
      exact htopnotL (he ▸ h1)
  · -- placement of the swap state
    intro i b hb
    show _ % (s1.cells.set _ _).length = i
    rw [hnodeT b, List.length_set]
    by_cases hij : i = cellIdx s1 (nodeAt s1 top).fold
    · subst hij
      have hb' : b ∈ replaceAddr (chainOf s1 (cellIdx s1 (nodeAt s1 top).fold))
          top a := by
        have := hb
        rw [show chainOf { s1 with
            store := storeSet s1.store a (nodeAt s1 top),
            cells := s1.cells.set (cellIdx s1 (nodeAt s1 top).fold)
              (replaceAddr (chainOf s1 (cellIdx s1 (nodeAt s1 top).fold)) top a) }
            (cellIdx s1 (nodeAt s1 top).fold) =
          replaceAddr (chainOf s1 (cellIdx s1 (nodeAt s1 top).fold)) top a
          from getD_set_self _ _ _ _ hj] at this
        exact this
      rcases List.mem_cons.mp ((replaceAddr_perm a hjtop).mem_iff.mp hb') with
        h1 | h1
      · rw [if_pos h1]
        show (nodeAt s top).fold % s1.cells.length = _
        rw [← hnode1 top]
        rfl
      · have hbm : b ∈ chainOf s1 (cellIdx s1 (nodeAt s1 top).fold) :=
          mem_of_mem_removeAddr h1
        have hba : b ≠ a := by
          intro he
          exact ha1 (he ▸ mem_allAddrs_of_mem_chain hbm)
        rw [if_neg hba, hlen]
        show (nodeAt s b).fold % s.cells.length = _
        rw [← hnode1 b, ← hlen]
        show (nodeAt s1 b).fold % s1.cells.length = _
        rw [hnode1 b, hlen]
        exact h.placement _ b (hsub _ b hbm)
    · have hb' : b ∈ chainOf s1 i := by
        have := hb
        rw [show chainOf { s1 with
            store := storeSet s1.store a (nodeAt s1 top),
            cells := s1.cells.set (cellIdx s1 (nodeAt s1 top).fold)
              (replaceAddr (chainOf s1 (cellIdx s1 (nodeAt s1 top).fold)) top a) }
            i = chainOf s1 i from getD_set_ne _ _ _ _ _ hij] at this
        exact this
      have hba : b ≠ a := by
        intro he
        exact ha1 (he ▸ mem_allAddrs_of_mem_chain hb')
      rw [if_neg hba, hlen]
      exact h.placement i b (hsub i b hb')
  · -- chained folds stay pairwise distinct
    have hmap1 : ∀ (l : List Addr), (∀ b ∈ l, b ≠ a) →
        l.map (fun b =>
          (nodeAt { s1 with
            store := storeSet s1.store a (nodeAt s1 top),
            cells := s1.cells.set (cellIdx s1 (nodeAt s1 top).fold)
              (replaceAddr (chainOf s1 (cellIdx s1 (nodeAt s1 top).fold)) top a) } b).fold) =
        l.map (fun b => (nodeAt s b).fold) := by
      intro l hl
      apply List.map_congr_left
      intro b hb
      rw [hnodeT b, if_neg (hl b hb)]
    have hpm := hpermB.map (fun b =>
      (nodeAt { s1 with
        store := storeSet s1.store a (nodeAt s1 top),
        cells := s1.cells.set (cellIdx s1 (nodeAt s1 top).fold)
          (replaceAddr (chainOf s1 (cellIdx s1 (nodeAt s1 top).fold)) top a) } b).fold)
    refine hpm.nodup_iff.mpr ?_
    rw [List.cons_append, List.map_cons, hnodeT a, if_pos rfl]
    rw [hmap1 _ (fun b hb he => ha1 (he ▸ hmemL b hb))]
    -- relate to the old fold multiset
    have hold := h.foldsNodup
    have hpmS := hperm.map (fun b => (nodeAt s b).fold)
    have h1 := hpmS.nodup_iff.mp hold
    rw [List.map_cons] at h1
    have h2 := (List.nodup_cons.mp h1).2
    have hpmA := hpermA.map (fun b => (nodeAt s b).fold)
    have hmapA : (allAddrs s1).map (fun b => (nodeAt s1 b).fold) =
        (allAddrs s1).map (fun b => (nodeAt s b).fold) := by
      apply List.map_congr_left
      intro b _
      rw [hnode1 b]
    have h3 := hpmA.nodup_iff.mp h2
    rw [List.cons_append, List.map_cons] at h3
    exact h3
  · -- every old chained address except the top stays chained
    intro x hx hne
    rcases List.mem_cons.mp (hperm.mem_iff.mp hx) with h1 | h1
    · subst h1
      exact hpermB.mem_iff.mpr (List.mem_cons_self ..)
    · rcases List.mem_cons.mp (hpermA.mem_iff.mp h1) with h2 | h2
      · exact absurd (h2.trans htopeq) hne
      · exact hpermB.mem_iff.mpr (List.mem_cons_of_mem a h2)

/-- cleanup_after_erase preserves the invariant, for any unlinked state
`s1` obtained from an invariant-satisfying state `s` by unlinking the
live address `a` from one chain. -/
theorem Inv_cleanup {ps : Nat} {s s1 : PartState} (h : Inv ps s) (a : Addr)
    (hblocks : s1.blocks = s.blocks) (hspare : s1.spare = s.spare)
    (hnext : s1.nextId = s.nextId) (hstore : s1.store = s.store)
    (hlen : s1.cells.length = s.cells.length)
    (hperm : List.Perm (allAddrs s) (a :: allAddrs s1))
    (hsub : ∀ i, ∀ b ∈ chainOf s1 i, b ∈ chainOf s i)
    (hliveA : liveAddr s a) :
    Inv ps (cleanupAfterErase s1 a) := by
  have h24 : nodeSize = 24 := rfl
  have hnodupS : (allAddrs s).Nodup := h.foldsNodup.of_map
  have hnodupCons : (a :: allAddrs s1).Nodup := hperm.nodup_iff.mp hnodupS
  have ha1 : a ∉ allAddrs s1 := (List.nodup_cons.mp hnodupCons).1
  have hnode1 : ∀ b, nodeAt s1 b = nodeAt s b := by
    intro b
    unfold nodeAt
    rw [hstore]
  have hmem1 : ∀ b ∈ allAddrs s1, b ∈ allAddrs s := fun b hb =>
    hperm.mem_iff.mpr (List.mem_cons_of_mem a hb)
  obtain ⟨pba, hpba, hfsta, hlta, hala⟩ := hliveA
  unfold cleanupAfterErase
  split
  · rename_i hbl
    exfalso
    rw [hblocks] at hbl
    rw [hbl] at hpba
    cases hpba
  · rename_i pid fo rest hbl
    have hsb : s.blocks = (pid, fo) :: rest := by rw [← hblocks, hbl]
    have hhead : ((pid, fo) : Nat × Nat) ∈ s.blocks := by
      rw [hsb]
      exact List.mem_cons_self ..
    have hfoal := h.foAligned _ hhead
    have hfopos := h.foPos _ hhead
    have htopmem : ((pid, fo - nodeSize) : Addr) ∈ allAddrs s := by
      have hk : (fo / nodeSize - 1) * nodeSize = fo - nodeSize := by
        rw [h24] at hfoal ⊢
        omega
      have hc := h.coverage _ hhead (fo / nodeSize - 1) (by
        rw [hk]
        show fo - nodeSize < fo
        rw [h24] at hfoal ⊢
        omega)
      rw [hk] at hc
      exact hc
    by_cases hat : a = (pid, fo - nodeSize)
    · rw [if_pos hat]
      refine Inv_shrinkTail h pid fo rest hsb hspare hnext hlen ?_ ?_ ?_ ?_
      · intro b hb
        refine ⟨h.chainsLive b (hmem1 b hb), ?_⟩
        intro he
        exact ha1 ((he.trans hat.symm) ▸ hb)
      · intro i b hb
        rw [hnode1 b, hlen]
        exact h.placement i b (hsub i b hb)
      · have hmapeq : ((allAddrs s1).map (fun b => (nodeAt s1 b).fold)) =
            ((allAddrs s1).map (fun b => (nodeAt s b).fold)) := by
          apply List.map_congr_left
          intro b _
          rw [hnode1 b]
        rw [hmapeq]
        have hpm := hperm.map (fun b => (nodeAt s b).fold)
        have hx := hpm.nodup_iff.mp h.foldsNodup
        rw [List.map_cons] at hx
        exact (List.nodup_cons.mp hx).2
      · intro x hx hne
        rcases List.mem_cons.mp (hperm.mem_iff.mp hx) with h1 | h1
        · exact absurd (h1.trans hat) hne
        · exact h1
    · rw [if_neg hat]
      exact Inv_cleanup_swap h a (pid, fo - nodeSize) pid fo rest hsb hspare
        hnext hstore hlen hperm hsub ⟨pba, hpba, hfsta, hlta, hala⟩ rfl hat
        htopmem

/-- partition::erase preserves the invariant. -/
theorem Inv_erasePart {ps : Nat} {s : PartState} (h : Inv ps s)
    (fold rec : Nat) : Inv ps (erasePart s fold rec) := by
  unfold erasePart
  cases hfind : (chainOf s (cellIdx s fold)).find?
      (fun a => (nodeAt s a).recPtr == rec) with
  | none => exact h
  | some a =>
    have hmem : a ∈ chainOf s (cellIdx s fold) :=
      List.mem_of_find?_eq_some hfind
    have hi : cellIdx s fold < s.cells.length := cellIdx_lt s fold h.cellsPos
    refine Inv_cleanup h a rfl rfl rfl rfl (by
        show (s.cells.set _ _).length = s.cells.length
        exact List.length_set ..)
      (allAddrs_unlink_perm s _ a hi hmem) ?_
      (h.chainsLive a (mem_allAddrs_of_mem_chain hmem))
    intro i b hb
    by_cases hii : i = cellIdx s fold
    · subst hii
      rw [chainOf_setChain_self s _ _ hi] at hb
      exact mem_of_mem_removeAddr hb
    · rw [chainOf_setChain_ne s _ _ _ hii] at hb
      exact hb

/-- The empty partition satisfies the invariant. -/
theorem Inv_initPart (m ps : Nat) (hm : 0 < m) : Inv ps (initPart m) := by
  have hall : allAddrs (initPart m) = [] := by
    show (List.replicate m ([] : List Addr)).flatten = []
    simp
  refine ⟨?_, ?_, ?_, ?_, ?_, ?_, ?_, ?_, ?_, ?_, ?_⟩
  · show 0 < (List.replicate m ([] : List Addr)).length
    simpa using hm
  · show (([] : List (Nat × Nat)).map Prod.fst).Nodup
    simp
  · intro pid hpid
    cases hpid
  · intro pb hpb
    cases hpb
  · intro pb hpb
    cases hpb
  · intro pb hpb
    cases hpb
  · intro pb hpb
    cases hpb
  · intro b hb
    rw [hall] at hb
    cases hb
  · intro i b hb
    exact absurd (hall ▸ mem_allAddrs_of_mem_chain hb) (List.not_mem_nil b)
  · intro pb hpb
    cases hpb
  · rw [hall]
    exact List.nodup_nil

/-- Every single operation preserves the invariant. -/
theorem Inv_applyOp {ps : Nat} {s : PartState} (h : Inv ps s)
    (hps : nodeSize ≤ ps) (op : PartOp) : Inv ps (applyOp ps s op) := by
  cases op with
  | prep => exact Inv_prepareInsert h
  | ins f r => exact Inv_insertPart h hps f r
  | ers f r => exact Inv_erasePart h f r

/-- Any sequence of operations preserves the invariant. -/
theorem Inv_applyOps {ps : Nat} {s : PartState} (h : Inv ps s)
    (hps : nodeSize ≤ ps) (ops : List PartOp) :
    Inv ps (applyOps ps s ops) := by
  induction ops generalizing s with
  | nil => exact h
  | cons op ops ih => exact ih (Inv_applyOp h hps op)

/-- The free offset of every slab page equals the number of chained nodes
residing in that page times the node size: nodes occupy exactly the
contiguous range `[0, free_offset)`. -/
theorem slab_freeOffset_eq {ps : Nat} {s : PartState} (h : Inv ps s) :
    ∀ pb ∈ s.blocks,
      pb.2 = nodeSize * ((allAddrs s).countP (fun a => a.1 == pb.1)) := by
  have h24 : nodeSize = 24 := rfl
  intro pb hpb
  obtain ⟨pid, fo⟩ := pb
  have hfo0 : fo % 24 = 0 := by
    have h1 := h.foAligned _ hpb
    rw [h24] at h1
    exact h1
  have hinj : Function.Injective (fun k : Nat => ((pid, k * nodeSize) : Addr)) := by
    intro x y hxy
    have h2 : x * nodeSize = y * nodeSize := congrArg Prod.snd hxy
    rw [h24] at h2
    omega
  have hLnodup : ((allAddrs s).filter (fun a => a.1 == pid)).Nodup :=
    ((allAddrs s).filter_sublist).nodup h.foldsNodup.of_map
  have hRnodup : ((List.range (fo / nodeSize)).map
      (fun k => ((pid, k * nodeSize) : Addr))).Nodup :=
    (List.nodup_range _).map hinj
  have hiff : ∀ x : Addr, x ∈ (allAddrs s).filter (fun a => a.1 == pid) ↔
      x ∈ (List.range (fo / nodeSize)).map
        (fun k => ((pid, k * nodeSize) : Addr)) := by
    intro x
    constructor
    · intro hx
      obtain ⟨hxm, hxp⟩ := List.mem_filter.mp hx
      have hxpid : x.1 = pid := by simpa using hxp
      obtain ⟨pb', hpb', hfst, hlt, hal⟩ := h.chainsLive x hxm
      have hpb'eq : pb' = (pid, fo) :=
        List.inj_on_of_nodup_map h.pidsNodup hpb' hpb
          (by rw [hfst, hxpid])
      have hlt' : x.2 < fo := by
        rw [hpb'eq] at hlt
        exact hlt
      have hal' : x.2 % 24 = 0 := by
        rw [h24] at hal
        exact hal
      refine List.mem_map.mpr ⟨x.2 / nodeSize, ?_, ?_⟩
      · refine List.mem_range.mpr ?_
        show x.2 / nodeSize < fo / nodeSize
        rw [h24]
        omega
      · show ((pid, x.2 / nodeSize * nodeSize) : Addr) = x
        have hsnd : x.2 / nodeSize * nodeSize = x.2 := by
          rw [h24]
          omega
        rw [hsnd, ← hxpid]
    · intro hx
      obtain ⟨k, hk, hke⟩ := List.mem_map.mp hx
      have hkr : k < fo / 24 := by
        have h1 := List.mem_range.mp hk
        rw [h24] at h1
        exact h1
      have hklt : k * nodeSize < fo := by
        rw [h24]
        omega
      have hcov := h.coverage _ hpb k hklt
      have hke' : ((pid, k * nodeSize) : Addr) = x := hke
      rw [hke'] at hcov
      refine List.mem_filter.mpr ⟨hcov, ?_⟩
      rw [← hke']
      simp
  have hperm := (List.perm_ext_iff_of_nodup hLnodup hRnodup).mpr hiff
  have hlength := hperm.length_eq
  rw [List.length_map, List.length_range] at hlength
  show fo = nodeSize * ((allAddrs s).countP (fun a => a.1 == pid))
  rw [List.countP_eq_length_filter, hlength, h24]
  omega

/-- C5: slab compaction invariant.  Starting from an empty partition with
`m` cells and page size `ps`, after any sequence of `prepare_insert`,
`insert` and `erase` operations the state is well formed (`Inv`: chains
reference exactly the node-aligned slots in `[0, free_offset)` of the
slab pages, every live slot is chained exactly once) and every slab
page's `free_offset` equals the number of chained nodes residing in that
page times `sizeof(ahi_node)`; `cleanup_after_erase` maintains this by
moving the tail page's top node into the erased slot, re-pointing the
single chain pointer that referenced the top, and shrinking, unlinking
the page when its `free_offset` reaches zero. -/
theorem C5_slab_compaction (m ps : Nat) (ops : List PartOp)
    (hm : 0 < m) (hps : nodeSize ≤ ps) :
    Inv ps (applyOps ps (initPart m) ops) ∧
    ∀ pb ∈ (applyOps ps (initPart m) ops).blocks,
      pb.2 = nodeSize *
        ((allAddrs (applyOps ps (initPart m) ops)).countP
          (fun a => a.1 == pb.1)) := by
  have h := Inv_applyOps (Inv_initPart m ps hm) hps ops
  exact ⟨h, slab_freeOffset_eq h⟩

/-- Witness for C5 at a concrete run: two cells, page size 72, a spare
refill, three inserts (filling one page and consuming the spare) and one
erase (which compacts by moving the top node). -/
theorem C5_slab_compaction_witness :
    Inv 72 (applyOps 72 (initPart 2)
      [.prep, .ins 1 10, .ins 4 20, .prep, .ins 3 30, .ers 1 10]) ∧
    ∀ pb ∈ (applyOps 72 (initPart 2)
      [.prep, .ins 1 10, .ins 4 20, .prep, .ins 3 30, .ers 1 10]).blocks,
      pb.2 = nodeSize *
        ((allAddrs (applyOps 72 (initPart 2)
          [.prep, .ins 1 10, .ins 4 20, .prep, .ins 3 30, .ers 1 10])).countP
          (fun a => a.1 == pb.1)) :=
  C5_slab_compaction 2 72
    [.prep, .ins 1 10, .ins 4 20, .prep, .ins 3 30, .ers 1 10]
    (by decide) (by decide)

/-- C6: insert collision-replacement.  When the cell chain already holds
a node of the same fold, insert overwrites that node's record pointer in
place: the chains, the slab list and the spare are unchanged, no node is
allocated, the multiset of chained folds is unchanged, and (under the
invariant) the partition still holds at most one node per fold value. -/
theorem C6_insert_collision_replacement {ps : Nat} (s : PartState)
    (fold rec : Nat) (a : Addr) (h : Inv ps s)
    (hfind : (chainOf s (cellIdx s fold)).find?
      (fun x => (nodeAt s x).fold == fold) = some a) :
    insertPart ps s fold rec =
      { s with store := storeSet s.store a ⟨fold, rec⟩ } ∧
    nodeAt (insertPart ps s fold rec) a = ⟨fold, rec⟩ ∧
    allAddrs (insertPart ps s fold rec) = allAddrs s ∧
    (insertPart ps s fold rec).blocks = s.blocks ∧
    (insertPart ps s fold rec).spare = s.spare ∧
    ((allAddrs (insertPart ps s fold rec)).map
      (fun b => (nodeAt (insertPart ps s fold rec) b).fold)) =
      ((allAddrs s).map (fun b => (nodeAt s b).fold)) ∧
    ((allAddrs (insertPart ps s fold rec)).map
      (fun b => (nodeAt (insertPart ps s fold rec) b).fold)).Nodup := by
  have hfa : (nodeAt s a).fold = fold := by
    have := List.find?_some hfind
    simpa using this
  have he : insertPart ps s fold rec =
      { s with store := storeSet s.store a ⟨fold, rec⟩ } := by
    unfold insertPart
    rw [hfind]
  have hnode : ∀ b, nodeAt (insertPart ps s fold rec) b =
      (if b = a then ⟨fold, rec⟩ else nodeAt s b) := by
    intro b
    rw [he]
    by_cases hba : b = a
    · rw [if_pos hba, hba]
      show ((storeSet s.store a ⟨fold, rec⟩).lookup a).getD _ = _
      rw [lookup_storeSet_self]
      rfl
    · rw [if_neg hba]
      show ((storeSet s.store a ⟨fold, rec⟩).lookup b).getD _ = _
      rw [lookup_storeSet_ne _ _ _ _ hba]
      rfl
  have hall : allAddrs (insertPart ps s fold rec) = allAddrs s := by
    rw [he]
    rfl
  have hmap : ((allAddrs (insertPart ps s fold rec)).map
      (fun b => (nodeAt (insertPart ps s fold rec) b).fold)) =
      ((allAddrs s).map (fun b => (nodeAt s b).fold)) := by
    rw [hall]
    apply List.map_congr_left
    intro b _
    rw [hnode b]
    by_cases hba : b = a
    · rw [if_pos hba, hba, hfa]
    · rw [if_neg hba]
  refine ⟨he, ?_, hall, by rw [he], by rw [he], hmap, ?_⟩
  · rw [hnode a, if_pos rfl]
  · rw [hmap]
    exact h.foldsNodup

/-- Witness for C6 at a concrete state: one chained node of fold 1; an
insert with the same fold replaces the record pointer in place. -/
theorem C6_insert_collision_replacement_witness :
    insertPart 72 (applyOps 72 (initPart 2) [.prep, .ins 1 10]) 1 99 =
      { (applyOps 72 (initPart 2) [.prep, .ins 1 10]) with
        store := storeSet
          (applyOps 72 (initPart 2) [.prep, .ins 1 10]).store (0, 0)
          ⟨1, 99⟩ } :=
  (C6_insert_collision_replacement
    (applyOps 72 (initPart 2) [.prep, .ins 1 10]) 1 99 (0, 0)
    (Inv_applyOps (Inv_initPart 2 72 (by decide)) (by decide)
      [.prep, .ins 1 10])
    (by decide)).1

/-- C7: allocation-shortage silent drop.  When no node of the fold
exists, the tail slab page is full (or there is none), and the spare is
empty, insert returns the state entirely unchanged. -/
theorem C7_insert_shortage_drop (ps : Nat) (s : PartState)
    (fold rec : Nat)
    (hfind : (chainOf s (cellIdx s fold)).find?
      (fun x => (nodeAt s x).fold == fold) = none)
    (hfull : s.blocks = [] ∨
      ∃ pid fo rest, s.blocks = (pid, fo) :: rest ∧ ¬ fo < ps - nodeSize)
    (hsp : s.spare = none) :
    insertPart ps s fold rec = s := by
  have hcs : consumeSpare s fold rec = s := by
    unfold consumeSpare
    rw [hsp]
  unfold insertPart
  rw [hfind]
  rcases hfull with hnil | ⟨pid, fo, rest, hcons, hfo⟩
  · rw [hnil]
    exact hcs
  · rw [hcons]
    show (if fo < ps - nodeSize then _ else consumeSpare s fold rec) = s
    rw [if_neg hfo]
    exact hcs

/-- Witness for C7: a full single-page slab (page size 48 holds one
node) with no spare; inserting a new fold leaves the state unchanged. -/
theorem C7_insert_shortage_drop_witness :
    insertPart 48 (applyOps 48 (initPart 2) [.prep, .ins 1 10]) 2 5 =
      applyOps 48 (initPart 2) [.prep, .ins 1 10] :=
  C7_insert_shortage_drop 48 (applyOps 48 (initPart 2) [.prep, .ins 1 10])
    2 5 (by decide)
    (Or.inr ⟨0, 24, [], by decide, by decide⟩)
    (by decide)

/-! ### The drop path: `btr_search_drop_page_hash_index` (btr0sea.cc
lines 1231-1398), `ha_remove_all_nodes_to_page` (lines 733-761) and
`btr_search_lazy_free` (lines 324-346).

The model is the sequential collapse of the function: the latch
re-checks (`index != block->index`, `!block->index`, the
`curr_left_bytes_fields` xor re-check) never fire without concurrent
writers, and the 128-fold batching of the removal loop collapses to one
removal pass per page fold.  `ut_a` / `ut_error` assertion failures are
modelled by an absorbing `aborted` flag.  Record pointers are plain
naturals; `pageOf` recovers the page a record lives on
(`page_align` / the `(uintptr(rec) ^ uintptr(page)) < srv_page_size`
test) with a model page size of 2^16. -/

/-- Page number of a record pointer (`page_align`). -/
def pageOf (r : Nat) : Nat := r / 2 ^ 16

/-- The rewind loop of `ha_remove_all_nodes_to_page`: find the first
node in the cell chain of `fold` whose record lies on page `pg`, unlink
it, run `cleanup_after_erase` (which may move another node), and rewind.
Each removal lowers the chained-node count by one, so that count bounds
the iterations (`fuel`). -/
def haRemoveLoop : Nat → PartState → Nat → Nat → PartState
  | 0, s, _, _ => s
  | fuel + 1, s, fold, pg =>
    match (chainOf s (cellIdx s fold)).find?
        (fun a => pageOf (nodeAt s a).recPtr == pg) with
    | none => s
    | some a =>
      haRemoveLoop fuel
        (cleanupAfterErase
          (setChain s (cellIdx s fold)
            (removeAddr (chainOf s (cellIdx s fold)) a)) a) fold pg

/-- `ha_remove_all_nodes_to_page`: drop every node of `fold` whose
record lies on page `pg`. -/
def haRemoveAllNodesToPage (s : PartState) (fold pg : Nat) : PartState :=
  haRemoveLoop ((allAddrs s).length + 1) s fold pg

/-- `dict_index_t` as seen by the drop path: the AHI reference count
(`search_info.ref_count`), the `freed()` mark, and whether the detached
dictionary state is still allocated (set to false by
`btr_search_lazy_free`). -/
structure DictIndex where
  refCount : Nat
  freed : Bool
  alive : Bool
  deriving Repr, DecidableEq

/-- `buf_block_t` as seen by the drop path: whether `block->index` is
set, and `curr_left_bytes_fields`. -/
structure DropBlock where
  index : Bool
  currLBF : Nat
  deriving Repr, DecidableEq

/-- The state touched by `btr_search_drop_page_hash_index`: the AHI
partition, the block, the index, the global `btr_search.enabled` flag,
and the absorbing assertion-failure flag. -/
structure SysState where
  aborted : Bool
  enabled : Bool
  part : PartState
  block : DropBlock
  idx : DictIndex
  deriving Repr, DecidableEq

/-- `btr_search_lazy_free`: perform the skipped steps of
`dict_index_remove_from_cache_low`, freeing the detached dictionary
state of the index. -/
def btr_search_lazy_free (i : DictIndex) : DictIndex :=
  { i with
    alive := false }

/-- `btr_search_drop_page_hash_index(block, garbage_collect)` over the
folds `pageFolds` of the records of the block's page `pg` (in the code
these are computed by `rec_fold` over the page at the block's
`n_bytes_fields`; the claims modelled here do not depend on the fold
values, so they are parameters).  Stations, in code order: the
`!index` early return; the `!index || !btr_search.enabled` early return
under the latch; the `garbage_collect && !index->freed()` early return;
`ut_a(n_bytes_fields)` (the block's recommendation must not be empty);
the removal loop; the `ref_count--` switch with `ut_error` on 0 and
`btr_search_lazy_free` on 1 when freed; finally `block->index =
nullptr`. -/
def dropPageHash (s : SysState) (garbageCollect : Bool)
    (pageFolds : List Nat) (pg : Nat) : SysState :=
  if s.aborted = true then s
  else if s.block.index = false then s
  else if s.enabled = false then s
  else if s.idx.freed = false ∧ garbageCollect = true then s
  else if s.block.currLBF % 2 ^ 31 = 0 then
    { s with
      aborted := true }
  else
    let part2 := pageFolds.foldl (fun p f => haRemoveAllNodesToPage p f pg)
      s.part
    match s.idx.refCount with
    | 0 =>
      { s with
        part := part2
        aborted := true }
    | r + 1 =>
      { s with
        part := part2
        block :=
          { s.block with
            index := false }
        idx :=
          if r = 0 ∧ s.idx.freed = true then
            { btr_search_lazy_free s.idx with
              refCount := r }
          else
            { s.idx with
              refCount := r } }

/-! ### The guess path: `btr_search_guess_on_hash` (btr0sea.cc lines
1058-1229).

The facts the function reads from the tuple, the buffer pool and the
page are collected in an environment record `GuessEnv`; the function is
transcribed in code order over it.  The AHI search-info fields it reads
and writes are the `SearchInfo` of the heuristic model; the cursor
fields it writes get their own record. -/

/-- `BTR_CUR_HASH`: the cursor was positioned by the hash index. -/
def btrCurHashFlag : Nat := 1

/-- `BTR_CUR_HASH_FAIL`: the hash guess failed. -/
def btrCurHashFailFlag : Nat := 2

/-- The environment of one `btr_search_guess_on_hash` call: everything
the function reads besides `index->search_info` and the cursor. -/
structure GuessEnv where
  tupleMinRec : Bool
  tupleNFields : Nat
  foldVal : Nat
  enabled : Bool
  chainHasFold : Bool
  gotLatch : Bool
  stateRemoveHash : Bool
  freedRecreated : Bool
  comp : Bool
  recStatusCorrupt : Bool
  pageIndexMismatch : Bool
  checkMismatch : Bool
  deriving Repr, DecidableEq

/-- The cursor fields written by the guess path. -/
structure GuessCursor where
  nBytesFields : Nat
  foldVal : Nat
  flag : Nat
  deriving Repr, DecidableEq

/-- The outcome of one `btr_search_guess_on_hash` call: the updated
search info and cursor, the return value, and whether the partition
latch was taken. -/
structure GuessResult where
  info : SearchInfo
  cur : GuessCursor
  success : Bool
  tookLatch : Bool
  deriving Repr, DecidableEq

/-- The shared `ahi_release_and_fail` / `fail` exit: release the
partition latch, set `cursor->flag = BTR_CUR_HASH_FAIL` and
`index->search_info.last_hash_succ = false`, return false. -/
def ahiFailExit (info : SearchInfo) (c : GuessCursor) : GuessResult :=
  ⟨{ info with
      lastHashSucc := false },
    { c with
      flag := btrCurHashFailFlag }, false, true⟩

/-- The cursor after `cursor->n_bytes_fields` is set from the
recommendation (`left_bytes_fields & ~LEFT_SIDE`). -/
def guessCursorPre (info : SearchInfo) (c : GuessCursor) : GuessCursor :=
  { c with
    nBytesFields := info.leftBytesFields % 2 ^ 31 }

/-- The cursor after `cursor->fold` and `cursor->flag = BTR_CUR_HASH`
are also set. -/
def guessCursorHash (e : GuessEnv) (info : SearchInfo) (c : GuessCursor) :
    GuessCursor :=
  { guessCursorPre info c with
    foldVal := e.foldVal
    flag := btrCurHashFlag }

/-- `btr_search_guess_on_hash`, in code order.  Pre-latch: the
last-hash-succ / n-hash-potential / min-rec test; `cursor->
n_bytes_fields` is set from the recommendation and the tuple must have
enough fields.  Then `cursor->fold` and `cursor->flag = BTR_CUR_HASH`
are set and the partition latch is taken; each subsequent rejection
(AHI disabled, chain miss, block latch try-fail, block being removed,
freed-and-recreated index, corrupt record status, page index-id
mismatch or `check_mismatch`) leaves through `ahiFailExit`.  On success
`n_hash_potential` is bumped below `BUILD_LIMIT + 5` and
`last_hash_succ` is set. -/
def btr_search_guess_on_hash (e : GuessEnv) (info : SearchInfo)
    (c : GuessCursor) : GuessResult :=
  if info.lastHashSucc = false ∨ info.nHashPotential = 0 ∨
      e.tupleMinRec = true then
    ⟨info, c, false, false⟩
  else if e.tupleNFields <
      btr_search_get_n_fields (guessCursorPre info c).nBytesFields then
    ⟨info, guessCursorPre info c, false, false⟩
  else if e.enabled = false then
    ahiFailExit info (guessCursorHash e info c)
  else if e.chainHasFold = false then
    ahiFailExit info (guessCursorHash e info c)
  else if e.gotLatch = false then
    ahiFailExit info (guessCursorHash e info c)
  else if e.stateRemoveHash = true then
    ahiFailExit info (guessCursorHash e info c)
  else if e.freedRecreated = true then
    ahiFailExit info (guessCursorHash e info c)
  else if e.comp = true ∧ e.recStatusCorrupt = true then
    ahiFailExit info (guessCursorHash e info c)
  else if e.pageIndexMismatch = true ∨ e.checkMismatch = true then
    ahiFailExit info (guessCursorHash e info c)
  else
    ⟨{ info with
        lastHashSucc := true
        nHashPotential :=
          if info.nHashPotential < buildLimitC + 5 then
            info.nHashPotential + 1
          else info.nHashPotential },
      guessCursorHash e info c, true, true⟩

/-! #### Theorems about the drop path -/

/-- A completed pass (past all early returns) of the drop function:
removal loop, reference-count switch, `block->index = nullptr`. -/
theorem dropPageHash_run (s : SysState) (gc : Bool) (pf : List Nat)
    (pg : Nat)
    (hab : s.aborted = false) (hbi : s.block.index = true)
    (hen : s.enabled = true)
    (hgc : s.idx.freed = true ∨ gc = false)
    (hnbf : ¬ s.block.currLBF % 2 ^ 31 = 0) :
    dropPageHash s gc pf pg =
      match s.idx.refCount with
      | 0 =>
        { s with
          part := pf.foldl (fun p f => haRemoveAllNodesToPage p f pg) s.part
          aborted := true }
      | r + 1 =>
        { s with
          part := pf.foldl (fun p f => haRemoveAllNodesToPage p f pg) s.part
          block :=
            { s.block with
              index := false }
          idx :=
            if r = 0 ∧ s.idx.freed = true then
              { btr_search_lazy_free s.idx with
                refCount := r }
            else
              { s.idx with
                refCount := r } } := by
  unfold dropPageHash
  rw [if_neg (by simp [hab]), if_neg (by simp [hbi]), if_neg (by simp [hen]),
    if_neg (by rcases hgc with h | h <;> simp [h]), if_neg hnbf]

/-- A completed pass on a reference count of 0: `ut_error`. -/
theorem dropPageHash_run_zero (s : SysState) (gc : Bool) (pf : List Nat)
    (pg : Nat)
    (hab : s.aborted = false) (hbi : s.block.index = true)
    (hen : s.enabled = true)
    (hgc : s.idx.freed = true ∨ gc = false)
    (hnbf : ¬ s.block.currLBF % 2 ^ 31 = 0)
    (hrc : s.idx.refCount = 0) :
    dropPageHash s gc pf pg =
      { s with
        part := pf.foldl (fun p f => haRemoveAllNodesToPage p f pg) s.part
        aborted := true } := by
  rw [dropPageHash_run s gc pf pg hab hbi hen hgc hnbf, hrc]

/-- A completed pass on a positive reference count: decrement, lazily
free on the last reference of a freed index, clear `block->index`. -/
theorem dropPageHash_run_succ (s : SysState) (gc : Bool) (pf : List Nat)
    (pg r : Nat)
    (hab : s.aborted = false) (hbi : s.block.index = true)
    (hen : s.enabled = true)
    (hgc : s.idx.freed = true ∨ gc = false)
    (hnbf : ¬ s.block.currLBF % 2 ^ 31 = 0)
    (hrc : s.idx.refCount = r + 1) :
    dropPageHash s gc pf pg =
      { s with
        part := pf.foldl (fun p f => haRemoveAllNodesToPage p f pg) s.part
        block :=
          { s.block with
            index := false }
        idx :=
          if r = 0 ∧ s.idx.freed = true then
            { btr_search_lazy_free s.idx with
              refCount := r }
          else
            { s.idx with
              refCount := r } } := by
  rw [dropPageHash_run s gc pf pg hab hbi hen hgc hnbf, hrc]

/-- C4: lazy free on last reference.  A call of
`btr_search_drop_page_hash_index` that passes every early return (the
block has a hash index, the AHI is enabled, the index is freed or
`garbage_collect` is off, and the recommendation word is non-empty)
decrements `index.search_info.ref_count` by exactly one; the `ut_error`
assertion fires exactly when the count was 0; and the detached
dictionary state is lazily freed (`btr_search_lazy_free`) precisely
when the count was 1 and the index is marked freed. -/
theorem C4_lazy_free_on_last_ref (s : SysState) (gc : Bool)
    (pf : List Nat) (pg : Nat)
    (hab : s.aborted = false) (hbi : s.block.index = true)
    (hen : s.enabled = true)
    (hgc : s.idx.freed = true ∨ gc = false)
    (hnbf : ¬ s.block.currLBF % 2 ^ 31 = 0)
    (halive : s.idx.alive = true) :
    (dropPageHash s gc pf pg).idx.refCount = s.idx.refCount - 1 ∧
    ((dropPageHash s gc pf pg).aborted = true ↔ s.idx.refCount = 0) ∧
    ((dropPageHash s gc pf pg).idx.alive = false ↔
      s.idx.refCount = 1 ∧ s.idx.freed = true) := by
  cases hrc : s.idx.refCount with
  | zero =>
    rw [dropPageHash_run_zero s gc pf pg hab hbi hen hgc hnbf hrc]
    refine ⟨?_, ⟨fun _ => rfl, fun _ => rfl⟩, ?_, ?_⟩
    · have h0 := hrc
      show s.idx.refCount = 0 - 1
      omega
    · intro hfalse
      have h' : s.idx.alive = false := hfalse
      rw [halive] at h'
      exact absurd h' (by decide)
    · intro hcon
      exact absurd hcon.1 (by decide)
  | succ r =>
    rw [dropPageHash_run_succ s gc pf pg r hab hbi hen hgc hnbf hrc]
    by_cases hf : r = 0 ∧ s.idx.freed = true
    · rw [if_pos hf]
      refine ⟨?_, ⟨fun h => ?_, fun h => ?_⟩, fun _ => ?_, fun _ => rfl⟩
      · show r = r + 1 - 1
        omega
      · have h' : s.aborted = true := h
        rw [hab] at h'
        exact absurd h' (by decide)
      · exact absurd h (by omega)
      · exact ⟨by rw [hf.1], hf.2⟩
    · rw [if_neg hf]
      refine ⟨?_, ⟨fun h => ?_, fun h => ?_⟩, fun h => ?_, fun h => ?_⟩
      · show r = r + 1 - 1
        omega
      · have h' : s.aborted = true := h
        rw [hab] at h'
        exact absurd h' (by decide)
      · exact absurd h (by omega)
      · have h' : s.idx.alive = false := h
        rw [halive] at h'
        exact absurd h' (by decide)
      · exact absurd ⟨by omega, h.2⟩ hf

/-- Witness for C4 at a concrete state: reference count 1 on a freed
index; the pass decrements to 0 and lazily frees. -/
theorem C4_lazy_free_on_last_ref_witness :
    (dropPageHash ⟨false, true, initPart 1, ⟨true, 2 ^ 16⟩, ⟨1, true, true⟩⟩
      false [] 0).idx.refCount =
      (⟨false, true, initPart 1, ⟨true, 2 ^ 16⟩,
        ⟨1, true, true⟩⟩ : SysState).idx.refCount - 1 ∧
    ((dropPageHash ⟨false, true, initPart 1, ⟨true, 2 ^ 16⟩, ⟨1, true, true⟩⟩
      false [] 0).aborted = true ↔
      (⟨false, true, initPart 1, ⟨true, 2 ^ 16⟩,
        ⟨1, true, true⟩⟩ : SysState).idx.refCount = 0) ∧
    ((dropPageHash ⟨false, true, initPart 1, ⟨true, 2 ^ 16⟩, ⟨1, true, true⟩⟩
      false [] 0).idx.alive = false ↔
      (⟨false, true, initPart 1, ⟨true, 2 ^ 16⟩,
        ⟨1, true, true⟩⟩ : SysState).idx.refCount = 1 ∧
      (⟨false, true, initPart 1, ⟨true, 2 ^ 16⟩,
        ⟨1, true, true⟩⟩ : SysState).idx.freed = true) :=
  C4_lazy_free_on_last_ref
    ⟨false, true, initPart 1, ⟨true, 2 ^ 16⟩, ⟨1, true, true⟩⟩ false [] 0
    rfl rfl rfl (Or.inl rfl) (by decide) rfl

/-- C8: garbage-collect frame condition.  When the block has a hash
index whose index is not marked freed, `drop(block, true)` returns with
the whole state unchanged. -/
theorem C8_gc_frame (s : SysState) (pf : List Nat) (pg : Nat)
    (hab : s.aborted = false) (hbi : s.block.index = true)
    (hfr : s.idx.freed = false) :
    dropPageHash s true pf pg = s := by
  unfold dropPageHash
  rw [if_neg (by simp [hab]), if_neg (by simp [hbi])]
  by_cases hen : s.enabled = false
  · rw [if_pos hen]
  · rw [if_neg hen, if_pos ⟨hfr, rfl⟩]

/-- Witness for C8: a populated state with a non-freed index is
returned untouched by a garbage-collect drop. -/
theorem C8_gc_frame_witness :
    dropPageHash ⟨false, true, initPart 1, ⟨true, 2 ^ 16⟩, ⟨2, false, true⟩⟩
      true [5] 0 =
      ⟨false, true, initPart 1, ⟨true, 2 ^ 16⟩, ⟨2, false, true⟩⟩ :=
  C8_gc_frame ⟨false, true, initPart 1, ⟨true, 2 ^ 16⟩, ⟨2, false, true⟩⟩
    [5] 0 rfl rfl rfl

/-- Any state satisfying one of the three leading early-return guards is
a fixed point of the drop function. -/
theorem dropPageHash_early (t : SysState) (gc : Bool) (pf : List Nat)
    (pg : Nat)
    (h : t.aborted = true ∨ t.block.index = false ∨ t.enabled = false) :
    dropPageHash t gc pf pg = t := by
  unfold dropPageHash
  by_cases h1 : t.aborted = true
  · rw [if_pos h1]
  · rw [if_neg h1]
    by_cases h2 : t.block.index = false
    · rw [if_pos h2]
    · rw [if_neg h2]
      by_cases h3 : t.enabled = false
      · rw [if_pos h3]
      · rcases h with h | h | h <;> contradiction

/-- The result of a non-garbage-collect drop always satisfies one of
the three leading early-return guards. -/
theorem dropPageHash_post (s : SysState) (pf : List Nat) (pg : Nat) :
    (dropPageHash s false pf pg).aborted = true ∨
    (dropPageHash s false pf pg).block.index = false ∨
    (dropPageHash s false pf pg).enabled = false := by
  unfold dropPageHash
  by_cases h1 : s.aborted = true
  · rw [if_pos h1]
    exact Or.inl h1
  · rw [if_neg h1]
    by_cases h2 : s.block.index = false
    · rw [if_pos h2]
      exact Or.inr (Or.inl h2)
    · rw [if_neg h2]
      by_cases h3 : s.enabled = false
      · rw [if_pos h3]
        exact Or.inr (Or.inr h3)
      · rw [if_neg h3, if_neg (by simp)]
        by_cases h5 : s.block.currLBF % 2 ^ 31 = 0
        · rw [if_pos h5]
          exact Or.inl rfl
        · rw [if_neg h5]
          cases hrc : s.idx.refCount with
          | zero => exact Or.inl rfl
          | succ r => exact Or.inr (Or.inl rfl)

/-- C9: drop idempotence.  Two consecutive non-garbage-collect drops of
the same block produce exactly the state of one: a completed first pass
leaves `block->index` null (or one of the other leading guards holds),
so the second call returns without modifying anything. -/
theorem C9_drop_idempotent (s : SysState) (pf : List Nat) (pg : Nat) :
    dropPageHash (dropPageHash s false pf pg) false pf pg =
      dropPageHash s false pf pg :=
  dropPageHash_early (dropPageHash s false pf pg) false pf pg
    (dropPageHash_post s pf pg)

/-! #### Theorems about the guess path -/

/-- A call whose search info has `last_hash_succ` unset is rejected by
the very first test: no state is touched and no latch is taken. -/
theorem guess_reject_stale (e : GuessEnv) (info : SearchInfo)
    (c : GuessCursor) (h : info.lastHashSucc = false) :
    btr_search_guess_on_hash e info c = ⟨info, c, false, false⟩ := by
  unfold btr_search_guess_on_hash
  rw [if_pos (Or.inl h)]

/-- Every outcome of the guess function is a pre-latch rejection (info
untouched, cursor flag untouched), a post-latch failure through the
shared fail exit, or a success with the latch taken. -/
theorem guess_shape (e : GuessEnv) (info : SearchInfo) (c : GuessCursor) :
    (∃ c', btr_search_guess_on_hash e info c = ⟨info, c', false, false⟩ ∧
      c'.flag = c.flag) ∨
    (∃ c', btr_search_guess_on_hash e info c = ahiFailExit info c') ∨
    ((btr_search_guess_on_hash e info c).success = true ∧
      (btr_search_guess_on_hash e info c).tookLatch = true) := by
  unfold btr_search_guess_on_hash
  by_cases h1 : info.lastHashSucc = false ∨ info.nHashPotential = 0 ∨
      e.tupleMinRec = true
  · rw [if_pos h1]
    exact Or.inl ⟨c, rfl, rfl⟩
  · rw [if_neg h1]
    by_cases h2 : e.tupleNFields <
        btr_search_get_n_fields (guessCursorPre info c).nBytesFields
    · rw [if_pos h2]
      exact Or.inl ⟨guessCursorPre info c, rfl, rfl⟩
    · rw [if_neg h2]
      by_cases h3 : e.enabled = false
      · rw [if_pos h3]
        exact Or.inr (Or.inl ⟨guessCursorHash e info c, rfl⟩)
      · rw [if_neg h3]
        by_cases h4 : e.chainHasFold = false
        · rw [if_pos h4]
          exact Or.inr (Or.inl ⟨guessCursorHash e info c, rfl⟩)
        · rw [if_neg h4]
          by_cases h5 : e.gotLatch = false
          · rw [if_pos h5]
            exact Or.inr (Or.inl ⟨guessCursorHash e info c, rfl⟩)
          · rw [if_neg h5]
            by_cases h6 : e.stateRemoveHash = true
            · rw [if_pos h6]
              exact Or.inr (Or.inl ⟨guessCursorHash e info c, rfl⟩)
            · rw [if_neg h6]
              by_cases h7 : e.freedRecreated = true
              · rw [if_pos h7]
                exact Or.inr (Or.inl ⟨guessCursorHash e info c, rfl⟩)
              · rw [if_neg h7]
                by_cases h8 : e.comp = true ∧ e.recStatusCorrupt = true
                · rw [if_pos h8]
                  exact Or.inr (Or.inl ⟨guessCursorHash e info c, rfl⟩)
                · rw [if_neg h8]
                  by_cases h9 : e.pageIndexMismatch = true ∨
                      e.checkMismatch = true
                  · rw [if_pos h9]
                    exact Or.inr (Or.inl ⟨guessCursorHash e info c, rfl⟩)
                  · rw [if_neg h9]
                    exact Or.inr (Or.inr ⟨rfl, rfl⟩)

/-- C10: failure feedback of the hash guess.  Whenever the guess
returns false on a path taken after the partition latch was acquired,
it has set `cursor->flag = BTR_CUR_HASH_FAIL` and
`search_info.last_hash_succ = false`, so an immediately repeated call
with the resulting search info (any environment, any cursor) is
rejected by the first pre-latch test, returning false with no latch
taken and no state modified; and every pre-latch rejection leaves the
search info and the cursor flag unmodified. -/
theorem C10_guess_fail_latch_feedback (e e2 : GuessEnv) (info : SearchInfo)
    (c c2 : GuessCursor) :
    ((btr_search_guess_on_hash e info c).success = false →
      (btr_search_guess_on_hash e info c).tookLatch = true →
      (btr_search_guess_on_hash e info c).info.lastHashSucc = false ∧
      (btr_search_guess_on_hash e info c).cur.flag = btrCurHashFailFlag ∧
      btr_search_guess_on_hash e2 (btr_search_guess_on_hash e info c).info
        c2 =
        ⟨(btr_search_guess_on_hash e info c).info, c2, false, false⟩) ∧
    ((btr_search_guess_on_hash e info c).tookLatch = false →
      (btr_search_guess_on_hash e info c).info = info ∧
      (btr_search_guess_on_hash e info c).cur.flag = c.flag ∧
      (btr_search_guess_on_hash e info c).success = false) := by
  rcases guess_shape e info c with ⟨c', he, hf⟩ | ⟨c', he⟩ | ⟨hs, hl⟩
  · constructor
    · intro _ hlatch
      rw [he] at hlatch
      cases hlatch
    · intro _
      rw [he]
      exact ⟨rfl, hf, rfl⟩
  · constructor
    · intro _ _
      rw [he]
      exact ⟨rfl, rfl, guess_reject_stale e2 _ c2 rfl⟩
    · intro hlatch
      rw [he] at hlatch
      cases hlatch
  · constructor
    · intro hfail
      rw [hs] at hfail
      cases hfail
    · intro hlatch
      rw [hl] at hlatch
      cases hlatch

/-- Witness for C10 at a concrete post-latch failure (AHI disabled at
latch time) followed by the rejected repeat call. -/
theorem C10_guess_fail_latch_feedback_witness :
    ((btr_search_guess_on_hash
        ⟨false, 2, 7, false, true, true, false, false, true, false, false,
          false⟩
        ⟨1, 2 ^ 16, 0, true⟩ ⟨0, 0, 0⟩).info.lastHashSucc = false ∧
      (btr_search_guess_on_hash
        ⟨false, 2, 7, false, true, true, false, false, true, false, false,
          false⟩
        ⟨1, 2 ^ 16, 0, true⟩ ⟨0, 0, 0⟩).cur.flag = btrCurHashFailFlag ∧
      btr_search_guess_on_hash
        ⟨false, 2, 7, true, true, true, false, false, true, false, false,
          false⟩
        (btr_search_guess_on_hash
          ⟨false, 2, 7, false, true, true, false, false, true, false, false,
            false⟩
          ⟨1, 2 ^ 16, 0, true⟩ ⟨0, 0, 0⟩).info ⟨9, 9, 9⟩ =
        ⟨(btr_search_guess_on_hash
          ⟨false, 2, 7, false, true, true, false, false, true, false, false,
            false⟩
          ⟨1, 2 ^ 16, 0, true⟩ ⟨0, 0, 0⟩).info, ⟨9, 9, 9⟩, false, false⟩) :=
  (C10_guess_fail_latch_feedback
      ⟨false, 2, 7, false, true, true, false, false, true, false, false,
        false⟩
      ⟨false, 2, 7, true, true, true, false, false, true, false, false,
        false⟩
      ⟨1, 2 ^ 16, 0, true⟩ ⟨0, 0, 0⟩ ⟨9, 9, 9⟩).1 (by decide) (by decide)

end Ahi
